import Mathlib

set_option maxRecDepth 2000

/-!
Verification of the finclear transaction-ingestion core: a shallow embedding
of `src/utils/csvParser.ts` and `src/utils/categorizer.ts` in Lean 4.

Modelling conventions:
  * JS strings are Lean `String`s processed as `List Char`; `string.length`
    is the codepoint count (the sources only treat BMP text).
  * JS numbers are modelled as exact rationals `ℚ` (the amounts the parser
    produces are short decimal fractions, identical in both readings).
  * `undefined` cells (out-of-range indexing `row[i]`) are `Option.none`.
  * `toLowerCase`/`toUpperCase` are modelled characterwise on ASCII and the
    Latin-1 letter block (the alphabets the keyword tables use).
  * `new Date(y, m, d)` is modelled as proleptic-Gregorian calendar
    normalization with the engine's 0..99 → 1900+y year quirk; `new
    Date(string)` (the "generic platform parser" fallback) is modelled on
    the ECMA-262 Date Time String Format (`YYYY-MM-DD` with optional
    `THH:MM[:SS]`), the only shapes ECMA-262 specifies; the host's local
    time zone is taken as UTC.
-/

namespace FinClear

/-- JS whitespace class `\s` (the members that occur in this data model:
space, tab, newline, carriage return, vertical tab, form feed, NBSP). -/
def isWs (c : Char) : Bool :=
  c == ' ' || c == '\t' || c == '\n' || c == '\r' ||
  c == '\x0b' || c == '\x0c' || c == '\u00A0'

/-- `String.prototype.trim` on a character list. -/
def trimL (l : List Char) : List Char :=
  ((l.dropWhile isWs).reverse.dropWhile isWs).reverse

/-- JS `s.trim()`. -/
def jsTrim (s : String) : String := ⟨trimL s.data⟩

/-- Lower-case code map: ASCII `A-Z` and Latin-1 `À-Þ` (except `×`) shift by
32, as `String.prototype.toLowerCase` does on these blocks. -/
def lowerCode (n : ℕ) : ℕ :=
  if (65 ≤ n ∧ n ≤ 90) ∨ (192 ≤ n ∧ n ≤ 222 ∧ n ≠ 215) then n + 32 else n

/-- Upper-case code map: ASCII `a-z` and Latin-1 `à-þ` (except `÷`) shift by
32, as `String.prototype.toUpperCase` does on these blocks. -/
def upperCode (n : ℕ) : ℕ :=
  if (97 ≤ n ∧ n ≤ 122) ∨ (224 ≤ n ∧ n ≤ 254 ∧ n ≠ 247) then n - 32 else n

def lowerChar (c : Char) : Char := Char.ofNat (lowerCode c.toNat)

def upperChar (c : Char) : Char := Char.ofNat (upperCode c.toNat)

/-- JS `s.toLowerCase()`. -/
def jsLower (s : String) : String := ⟨s.data.map lowerChar⟩

/-- JS `s.toUpperCase()`. -/
def jsUpper (s : String) : String := ⟨s.data.map upperChar⟩

/-- Substring search on lists: does `l` contain `pat` as a contiguous run? -/
def hasSubL (pat : List Char) : List Char → Bool
  | [] => pat.isPrefixOf []
  | c :: t => pat.isPrefixOf (c :: t) || hasSubL pat t

/-- JS `s.includes(pat)`. -/
def hasSub (s pat : String) : Bool := hasSubL pat.data s.data

/-- `parseInt` on an all-digit capture group. -/
def digitsVal (l : List Char) : ℕ :=
  l.foldl (fun a c => a * 10 + (c.toNat - 48)) 0

/-- Magnitude part of `parseFloat` over the post-cleaning alphabet
`[0-9.,-]`: maximal digit run, optional `.` plus fraction digits; `none`
when no digit was consumed (JS `NaN`). -/
def floatMag (l : List Char) : Option ℚ :=
  let d1 := l.takeWhile Char.isDigit
  let r1 := l.dropWhile Char.isDigit
  match r1 with
  | '.' :: r2 =>
      let d2 := r2.takeWhile Char.isDigit
      if d1.isEmpty && d2.isEmpty then none
      else some (Rat.divInt
        ((digitsVal d1 : Int) * 10 ^ d2.length + (digitsVal d2 : Int))
        (10 ^ d2.length))
  | _ => if d1.isEmpty then none else some (Rat.divInt (digitsVal d1) 1)

/-- `parseFloat` over the post-cleaning alphabet `[0-9.,-]` (no whitespace,
no exponent, no `Infinity` can survive the `[^0-9.,-]` strip): optional
leading minus then `floatMag`; `none` is JS `NaN`. -/
def parseFloatR (l : List Char) : Option ℚ :=
  match l with
  | '-' :: rest => (floatMag rest).map (fun q => -q)
  | rest => floatMag rest

/-- Whether `parseFloat(s)` on an arbitrary string is `NaN`: after skipping
leading whitespace and one optional sign there must be neither a digit, nor
`.` followed by a digit, nor the literal `Infinity`. -/
def parseFloatNaN (s : String) : Bool :=
  let l := s.data.dropWhile isWs
  let l2 := match l with
    | '+' :: r => r
    | '-' :: r => r
    | r => r
  !("Infinity".data.isPrefixOf l2 ||
    (match l2 with | c :: _ => c.isDigit | [] => false) ||
    (match l2 with | '.' :: c :: _ => c.isDigit | _ => false))

/-- One maximal `\s+` run becomes a single space (`replace(/\s+/g, ' ')`). -/
def collapseWsL : List Char → List Char
  | [] => []
  | [c] => if isWs c then [' '] else [c]
  | c :: d :: t =>
      if isWs c && isWs d then collapseWsL (d :: t)
      else (if isWs c then ' ' else c) :: collapseWsL (d :: t)

/-- `cleanString` of `csvParser.ts`: collapse whitespace runs and trim. -/
def cleanString (s : String) : String :=
  if s = "" then "" else ⟨trimL (collapseWsL s.data)⟩

/-! ### Amount parser (`parseAmount`, csvParser.ts lines 173-204) -/

/-- Index of the first match in a list, `none` when there is none. -/
def firstIdx (p : Char → Bool) : List Char → Option ℕ
  | [] => none
  | c :: t => if p c then some 0 else (firstIdx p t).map (· + 1)

/-- `str.lastIndexOf(c)`: highest index holding `c`, `-1` when absent (the
first occurrence in the reversed list, re-indexed). -/
def lastIndexOf (l : List Char) (c : Char) : Int :=
  match firstIdx (· == c) l.reverse with
  | some i => (l.length : Int) - 1 - i
  | none => -1

/-- The decimal-comma heuristic of `parseAmount`, verbatim:
`(lastComma > lastDot && lastComma !== -1) || (lastComma !== -1 && lastDot === -1)`. -/
def germanHeuristic (l : List Char) : Bool :=
  let lastComma := lastIndexOf l ','
  let lastDot := lastIndexOf l '.'
  (lastComma > lastDot && lastComma != -1) || (lastComma != -1 && lastDot == -1)

/-- `replace(/[^0-9.,-]/g, '')`. -/
def keepNumChars (l : List Char) : List Char :=
  l.filter (fun c => c.isDigit || c == '.' || c == ',' || c == '-')

/-- JS `replace(',', '.')`: only the first occurrence is replaced. -/
def replaceFirstComma : List Char → List Char
  | [] => []
  | ',' :: t => '.' :: t
  | c :: t => c :: replaceFirstComma t

/-- Separator normalization of `parseAmount`: decimal-comma format drops
every period and turns the first comma into a period; decimal-point format
drops every comma. -/
def normalizeSeps (german : Bool) (l : List Char) : List Char :=
  if german then replaceFirstComma (l.filter (· != '.'))
  else l.filter (· != ',')

/-- The numeric core of `parseAmount` after the parentheses were stripped:
format heuristic, character strip, separator normalization, `parseFloat`;
`none` when `parseFloat` gave `NaN`. -/
def amountParsed (clean : String) : Option ℚ :=
  parseFloatR (normalizeSeps (germanHeuristic clean.data) (keepNumChars clean.data))

/-- The parenthesis-negative handling of `parseAmount`: the trimmed value
with the wrapping parentheses removed, and the flag. -/
def parenStrip (clean0 : String) : String × Bool :=
  let isParenNegative := clean0.data.head? == some '(' &&
    clean0.data.getLast? == some ')'
  (if isParenNegative then ⟨(clean0.data.drop 1).dropLast⟩ else clean0,
   isParenNegative)

/-- `parseAmount` (csvParser.ts lines 173-204). The argument is
`string | undefined`; `undefined` and `''` give 0 (`if (!str) return 0`).
A `(...)`-wrapped trimmed value sets the negative flag first; an
unparseable core gives 0 before the flag applies; otherwise the flag
forces `-Math.abs(val)`. -/
def parseAmount (str : Option String) : ℚ :=
  match str with
  | none => 0
  | some s =>
    if s = "" then 0
    else
      let p := parenStrip (jsTrim s)
      let val := (amountParsed p.1).getD 0
      if p.2 then -|val| else val

/-! ### Date machinery (`normalizeDate`, csvParser.ts lines 212-277) -/

/-- Leap year of the proleptic Gregorian calendar (what `Date` uses). -/
def isLeap (y : Int) : Bool := y % 4 == 0 && (y % 100 != 0 || y % 400 == 0)

/-- Days in 0-based month `m` of year `y`. -/
def daysInMonth (y : Int) (m : ℕ) : Int :=
  if m = 1 then (if isLeap y then 29 else 28)
  else if m = 3 ∨ m = 5 ∨ m = 8 ∨ m = 10 then 30
  else 31

/-- Day-of-month normalization of `new Date(y, m, d)`: walk an out-of-range
day count into the calendar, one month per step (fuel bounds the walk; the
day counts reachable here are two-digit). -/
def normDay (fuel : ℕ) (y : Int) (m : ℕ) (d : Int) : Int × ℕ × Int :=
  match fuel with
  | 0 => (y, m, d)
  | fuel + 1 =>
    if d < 1 then
      let y' := if m = 0 then y - 1 else y
      let m' := if m = 0 then 11 else m - 1
      normDay fuel y' m' (d + daysInMonth y' m')
    else if d > daysInMonth y m then
      let y' := if m = 11 then y + 1 else y
      let m' := if m = 11 then 0 else m + 1
      normDay fuel y' m' (d - daysInMonth y m)
    else (y, m, d)

/-- `new Date(year, monthIndex, day)` reduced to its local calendar triple
`(getFullYear, getMonth, getDate)`: the 0..99 → 1900+year quirk, floor
division of the month index into the year, then day normalization. -/
def jsNewDate (y m d : Int) : Int × ℕ × Int :=
  let y0 := if 0 ≤ y ∧ y ≤ 99 then y + 1900 else y
  let ym := y0 + m.fdiv 12
  let mm := (m.emod 12).toNat
  normDay 10000 ym mm d

/-- `String(n).padStart(2, '0')`. -/
def pad2 (n : Int) : String :=
  let s := toString n
  if s.length < 2 then "0" ++ s else s

/-- The `YYYY-MM-DD` emission of `normalizeDate` from a calendar triple
(`getMonth` is 0-based, so the month is `m + 1`). -/
def formatYmd : Int × ℕ × Int → String
  | (y, m, d) => toString y ++ "-" ++ pad2 ((m : Int) + 1) ++ "-" ++ pad2 d

/-- `l.getD i ' '` is a digit (position check for the ISO test). -/
def digitAt (l : List Char) (i : ℕ) : Bool := (l.getD i ' ').isDigit

/-- The `^\d{4}-\d{2}-\d{2}$` test of `normalizeDate`. -/
def isoShape (l : List Char) : Bool :=
  l.length == 10 &&
  digitAt l 0 && digitAt l 1 && digitAt l 2 && digitAt l 3 &&
  l.getD 4 ' ' == '-' &&
  digitAt l 5 && digitAt l 6 &&
  l.getD 7 ' ' == '-' &&
  digitAt l 8 && digitAt l 9

/-- The date separators `[.∕-]`. -/
def isSep (c : Char) : Bool := c == '.' || c == '/' || c == '-'

/-- Matcher for `^(\d{1,2})[.∕-](\d{1,2})[.∕-](\d{4})$` (the European
pattern): the three captured groups as numbers. -/
def euMatch (s : String) : Option (ℕ × ℕ × ℕ) :=
  let l := s.data
  let d1 := l.takeWhile Char.isDigit
  if d1.length = 0 ∨ 2 < d1.length then none else
  match l.dropWhile Char.isDigit with
  | c1 :: r2 =>
    if !isSep c1 then none else
    let d2 := r2.takeWhile Char.isDigit
    if d2.length = 0 ∨ 2 < d2.length then none else
    match r2.dropWhile Char.isDigit with
    | c2 :: r4 =>
      if !isSep c2 then none else
      let d3 := r4.takeWhile Char.isDigit
      if d3.length = 4 ∧ r4.dropWhile Char.isDigit = [] then
        some (digitsVal d1, digitsVal d2, digitsVal d3)
      else none
    | [] => none
  | [] => none

/-- Matcher for `^(\d{1,2})[.∕-](\d{1,2})[.∕-](\d{2,4})$` (the US pattern):
the year group is kept as its digit list (its length is tested). -/
def usMatch (s : String) : Option (ℕ × ℕ × List Char) :=
  let l := s.data
  let d1 := l.takeWhile Char.isDigit
  if d1.length = 0 ∨ 2 < d1.length then none else
  match l.dropWhile Char.isDigit with
  | c1 :: r2 =>
    if !isSep c1 then none else
    let d2 := r2.takeWhile Char.isDigit
    if d2.length = 0 ∨ 2 < d2.length then none else
    match r2.dropWhile Char.isDigit with
    | c2 :: r4 =>
      if !isSep c2 then none else
      let d3 := r4.takeWhile Char.isDigit
      if (d3.length = 2 ∨ d3.length = 3 ∨ d3.length = 4) ∧
          r4.dropWhile Char.isDigit = [] then
        some (digitsVal d1, digitsVal d2, d3)
      else none
    | [] => none
  | [] => none

/-- Matcher for `^(\d{4})[.∕-](\d{1,2})[.∕-](\d{1,2})$`. -/
def isoLikeMatch (s : String) : Option (ℕ × ℕ × ℕ) :=
  let l := s.data
  let d1 := l.takeWhile Char.isDigit
  if d1.length ≠ 4 then none else
  match l.dropWhile Char.isDigit with
  | c1 :: r2 =>
    if !isSep c1 then none else
    let d2 := r2.takeWhile Char.isDigit
    if d2.length = 0 ∨ 2 < d2.length then none else
    match r2.dropWhile Char.isDigit with
    | c2 :: r4 =>
      if !isSep c2 then none else
      let d3 := r4.takeWhile Char.isDigit
      if (d3.length = 1 ∨ d3.length = 2) ∧ r4.dropWhile Char.isDigit = [] then
        some (digitsVal d1, digitsVal d2, digitsVal d3)
      else none
    | [] => none
  | [] => none

/-- Exactly `n` digits from the front of `l`, with the rest. -/
def takeDigitsN (n : ℕ) (l : List Char) : Option (ℕ × List Char) :=
  let d := l.takeWhile Char.isDigit
  if d.length = n then some (digitsVal d, l.dropWhile Char.isDigit) else none

/-- The optional time part `THH:MM[:SS]` of the ECMA-262 Date Time String
Format (`[]` means the whole rest was consumed legally). -/
def timePartOk (l : List Char) : Bool :=
  match l with
  | [] => true
  | 'T' :: r =>
    match takeDigitsN 2 r with
    | some (hh, ':' :: r2) =>
      (match takeDigitsN 2 r2 with
       | some (mm, rest2) =>
         hh ≤ 23 && mm ≤ 59 &&
         (match rest2 with
          | [] => true
          | ':' :: r3 =>
            (match takeDigitsN 2 r3 with
             | some (ss, []) => ss ≤ 59
             | _ => false)
          | _ => false)
       | none => false)
    | _ => false
  | _ => false

/-- `new Date(string)`, the "generic platform parser" fallback of
`normalizeDate`, modelled on the ECMA-262 Date Time String Format
`YYYY-MM-DD[THH:MM[:SS]]` (the only form ECMA-262 specifies; anything else
is Invalid Date here). Date-only strings parse as UTC and time-carrying
ones as local time; with the host time zone taken as UTC, the local
calendar triple the `get*` accessors read back is the written one. No year
quirk applies to `Date.parse`. -/
def jsDateParse (s : String) : Option (Int × ℕ × Int) :=
  match takeDigitsN 4 s.data with
  | some (y, '-' :: r1) =>
    (match takeDigitsN 2 r1 with
     | some (m, '-' :: r2) =>
       (match takeDigitsN 2 r2 with
        | some (d, rest) =>
          if 1 ≤ m ∧ m ≤ 12 ∧ 1 ≤ d ∧ (d : Int) ≤ daysInMonth y (m - 1) ∧
              timePartOk rest = true then
            some ((y : Int), m - 1, (d : Int))
          else none
        | none => none)
     | _ => none)
  | _ => none

/-- `normalizeDate` (csvParser.ts lines 212-277): empty in, empty out; a
trimmed `YYYY-MM-DD` is returned unchanged; then the European, US and
ISO-like patterns are tried in order, each building a `new Date` whose
local calendar triple is re-emitted zero-padded; then the platform parser;
when everything fails, the trimmed original is passed through. -/
def normalizeDate (dateStr : String) : String :=
  if dateStr = "" then ""
  else
    let cleaned := jsTrim dateStr
    if isoShape cleaned.data then cleaned
    else
      match euMatch cleaned with
      | some (day, month, year) =>
        -- first group > 12: day-first; second group > 12: US month-first;
        -- ambiguous: day-first
        if 12 < day then
          formatYmd (jsNewDate year ((month : Int) - 1) day)
        else if 12 < month then
          formatYmd (jsNewDate year ((day : Int) - 1) month)
        else
          formatYmd (jsNewDate year ((month : Int) - 1) day)
      | none =>
      match usMatch cleaned with
      | some (first, second, yearDigits) =>
        let yearNum := digitsVal yearDigits
        let fullYear : ℕ :=
          if yearDigits.length = 2 then
            if 50 < yearNum then 1900 + yearNum else 2000 + yearNum
          else yearNum
        if 12 < first then
          formatYmd (jsNewDate fullYear ((second : Int) - 1) first)
        else
          formatYmd (jsNewDate fullYear ((first : Int) - 1) second)
      | none =>
      match isoLikeMatch cleaned with
      | some (year, month, day) =>
        formatYmd (jsNewDate year ((month : Int) - 1) day)
      | none =>
      match jsDateParse cleaned with
      | some t => formatYmd t
      | none => cleaned

/-! ### Line tokenizer, delimiter detector (csvParser.ts lines 86-171) -/

/-- Split on `\n` collecting the `\r?` of the preceding characters:
`content.split(/\r?\n/)`. `acc` holds the current segment reversed. -/
def splitNlAux : List Char → List Char → List (List Char)
  | [], acc => [acc.reverse]
  | '\n' :: t, acc =>
      (if acc.head? = some '\r' then acc.tail else acc).reverse :: splitNlAux t []
  | c :: t, acc => splitNlAux t (c :: acc)

/-- `content.split(/\r?\n/)` then `filter(line => line.trim() !== '')`. -/
def contentLines (content : String) : List (List Char) :=
  (splitNlAux content.data []).filter (fun l => trimL l ≠ [])

/-- The quote-aware field scanner of `parseLine`: a double quote toggles the
in-quote state (and is dropped), the delimiter splits only outside quotes.
`cur` holds the current field reversed. -/
def parseLineAux (delim : Char) : List Char → Bool → List Char → List (List Char)
  | [], _, cur => [cur.reverse]
  | c :: t, inQuote, cur =>
      if c = '"' then parseLineAux delim t (!inQuote) cur
      else if c = delim ∧ ¬inQuote then cur.reverse :: parseLineAux delim t inQuote []
      else parseLineAux delim t inQuote (c :: cur)

/-- `replace(/^"|"$/g, '')`: one leading and one trailing double quote
removed (the scanner never emits quotes, so this is the identity on its
output; kept for fidelity). -/
def dropEdgeQuotes (l : List Char) : List Char :=
  let l1 := if l.head? = some '"' then l.tail else l
  if l1.getLast? = some '"' then l1.dropLast else l1

/-- `parseLine` (csvParser.ts lines 153-171): scan, trim each field, strip
edge quotes, trim again. -/
def parseLine (line : List Char) (delim : Char) : List String :=
  (parseLineAux delim line false []).map
    (fun f => ⟨trimL (dropEdgeQuotes (trimL f))⟩)

/-- Delimiter candidates in priority order. -/
def delimCands : List Char := [';', ',', '\t', '|']

/-- A candidate's score in `detectDelimiter`: the average per-line count of
the character over the sample (`line.split(d).length - 1` occurrences per
line), plus the fixed `0.1` bias for `;`. -/
def delimScore (sample : List (List Char)) (d : Char) : ℚ :=
  (((sample.map (fun l => (l.countP (· == d) : ℚ))).sum) / sample.length) +
    (if d = ';' then Rat.divInt 1 10 else 0)

/-- `detectDelimiter` (csvParser.ts lines 86-96): the head of the stable
descending sort by score, i.e. the first candidate with the maximal score. -/
def detectDelimiter (sample : List (List Char)) : Char :=
  (delimCands.foldl
    (fun best d => if delimScore sample d > delimScore sample best then d else best)
    ';')

/-! ### Header locator and column mapper (csvParser.ts lines 98-151) -/

/-- The column-role map of `findHeaders`; `-1` is the "absent" sentinel. -/
structure ColMap where
  date : Int
  payee : Int
  memo : Int
  amount : Int
  debit : Int
  credit : Int
deriving DecidableEq

def emptyMap : ColMap := ⟨-1, -1, -1, -1, -1, -1⟩

def KWdate : List String := ["date", "time", "datum", "buchungstag", "valuta", "zeit"]

def KWpayee : List String :=
  ["payee", "merchant", "beguenstigter", "empfaenger", "name", "partei",
   "auftraggeber", "counterparty"]

def KWmemo : List String :=
  ["description", "desc", "memo", "narrative", "details", "verwendungszweck",
   "buchungstext", "text", "referenz", "purpose"]

def KWamount : List String :=
  ["amount", "value", "amt", "net", "betrag", "umsatz", "saldo", "amount (eur)"]

def KWdebit : List String :=
  ["debit", "withdrawal", "paid out", "soll", "ausgang", "belastung"]

def KWcredit : List String :=
  ["credit", "deposit", "paid in", "hab", "eingang", "gutschrift"]

/-- `KEYWORDS.date.some(k => col.includes(k))`. -/
def mDate (col : String) : Bool := KWdate.any (fun k => hasSub col k)

/-- `KEYWORDS.amount.some(k => col === k || col.includes(k))`. -/
def mAmount (col : String) : Bool := KWamount.any (fun k => col == k || hasSub col k)

def mPayee (col : String) : Bool := KWpayee.any (fun k => hasSub col k)

def mMemo (col : String) : Bool := KWmemo.any (fun k => hasSub col k)

def mDebit (col : String) : Bool := KWdebit.any (fun k => hasSub col k)

def mCredit (col : String) : Bool := KWcredit.any (fun k => hasSub col k)

/-- The running state of the `row.forEach` scan: the partial map and score. -/
structure ScanState where
  map : ColMap
  score : ℕ
deriving DecidableEq

/-- One cell of the `row.forEach` body (csvParser.ts lines 119-135): an
else-if chain; `date`, `amount`, `debit`, `credit` assign unconditionally
(a later match overwrites), `payee` and `memo` assign only when still
unset; every match scores. -/
def scanStep (i : Int) (st : ScanState) (col : String) : ScanState :=
  if mDate col then ⟨{ st.map with date := i }, st.score + 3⟩
  else if mAmount col then ⟨{ st.map with amount := i }, st.score + 3⟩
  else if mPayee col then
    ⟨if st.map.payee = -1 then { st.map with payee := i } else st.map, st.score + 2⟩
  else if mMemo col then
    ⟨if st.map.memo = -1 then { st.map with memo := i } else st.map, st.score + 2⟩
  else if mDebit col then ⟨{ st.map with debit := i }, st.score + 2⟩
  else if mCredit col then ⟨{ st.map with credit := i }, st.score + 2⟩
  else st

def scanRowAux (i : Int) (st : ScanState) : List String → ScanState
  | [] => st
  | col :: rest => scanRowAux (i + 1) (scanStep i st col) rest

/-- The whole `row.forEach` scan of one candidate row. -/
def scanRow (cells : List String) : ScanState := scanRowAux 0 ⟨emptyMap, 0⟩ cells

/-- The `hasMoney` validation (csvParser.ts line 141), with its redundant
disjuncts kept verbatim. -/
def hasMoney (m : ColMap) : Prop :=
  m.amount ≠ -1 ∨ (m.debit ≠ -1 ∧ m.credit ≠ -1) ∨ m.debit ≠ -1 ∨ m.credit ≠ -1

instance (m : ColMap) : Decidable (hasMoney m) := by
  unfold hasMoney; infer_instance

/-- The result of `findHeaders`. -/
structure HeaderResult where
  headerIndex : Int
  columnMap : ColMap
deriving DecidableEq

/-- The candidate loop of `findHeaders`: keep the qualifying row with the
strictly highest score (ties keep the earlier row). -/
def findHeadersAux (delim : Char) (i : Int) (best : HeaderResult) (bestScore : ℕ) :
    List (List Char) → HeaderResult
  | [] => best
  | line :: rest =>
    let cells := (parseLine line delim).map (fun c => jsTrim (jsLower c))
    let st := scanRow cells
    if st.map.date ≠ -1 ∧ hasMoney st.map ∧ bestScore < st.score then
      findHeadersAux delim (i + 1) ⟨i, st.map⟩ st.score rest
    else
      findHeadersAux delim (i + 1) best bestScore rest

/-- `findHeaders` (csvParser.ts lines 98-151): scan the first 25 rows. -/
def findHeaders (lines : List (List Char)) (delim : Char) : HeaderResult :=
  findHeadersAux delim 0 ⟨-1, emptyMap⟩ 0 (lines.take 25)

/-! ### Row normalizer and `parseCSV` (csvParser.ts lines 3-82) -/

/-- The parsed record type (`RawTransaction` of `types.ts`). -/
structure RawTransaction where
  date : String
  description : String
  amount : ℚ
deriving DecidableEq

/-- JS `row[i]`: `undefined` (here `none`) when out of range or negative. -/
def rowGet (row : List String) (i : Int) : Option String :=
  if i < 0 then none else row.get? i.toNat

/-- JS truthiness of a `string | undefined` value. -/
def truthy : Option String → Bool
  | none => false
  | some s => s ≠ ""

/-- Template-literal stringification: `undefined` prints as "undefined". -/
def jsStr : Option String → String
  | none => "undefined"
  | some s => s

/-- JS `a || b` on `string | undefined` values. -/
def jsOr (a b : Option String) : Option String := if truthy a then a else b

/-- The fallback-column test of csvParser.ts lines 44-51: not one of the
mapped money/date columns, longer than 5 characters, and
`isNaN(parseFloat(col))`. -/
def fallbackCell (m : ColMap) (i : ℕ) (col : String) : Bool :=
  (i : Int) ≠ m.date ∧ (i : Int) ≠ m.amount ∧ (i : Int) ≠ m.debit ∧
    (i : Int) ≠ m.credit ∧ 5 < col.length ∧ parseFloatNaN col

/-- `row.findIndex` with the running index. -/
def findIdxAux (m : ColMap) (i : ℕ) : List String → Option ℕ
  | [] => none
  | col :: rest => if fallbackCell m i col then some i else findIdxAux m (i + 1) rest

/-- The payee/memo-built base description (csvParser.ts lines 28-40): join
distinct payee and memo cells (template-literal semantics, so an
out-of-range cell prints "undefined"), otherwise `payeeStr || memoStr`. -/
def descBase (m : ColMap) (row : List String) : Option String :=
  let payeeStr : Option String := if m.payee ≠ -1 then rowGet row m.payee else some ""
  let memoStr : Option String := if m.memo ≠ -1 then rowGet row m.memo else some ""
  if m.payee ≠ -1 ∧ m.memo ≠ -1 ∧ m.payee ≠ m.memo then
    some (jsTrim (jsStr payeeStr ++ " " ++ jsStr memoStr))
  else jsOr payeeStr memoStr

/-- The falsy-or-short test guarding the fallback scan (csvParser.ts line
43): `!fullDescription || fullDescription.length < 3` with short-circuit
semantics (`undefined` never reaches `.length`). -/
def descNeedsFallback (fd0 : Option String) : Bool :=
  !truthy fd0 || decide ((jsStr fd0).length < 3)

/-- The description construction of the row normalizer (csvParser.ts lines
28-55): the base description; the first substantial unmapped text column
when that is empty or shorter than 3 characters; the placeholder
"Unknown Transaction" when still falsy. -/
def buildDescription (m : ColMap) (row : List String) : String :=
  let fd0 := descBase m row
  let fd1 : Option String :=
    if descNeedsFallback fd0 then
      match findIdxAux m 0 row with
      | some i => rowGet row i
      | none => fd0
    else fd0
  if truthy fd1 then jsStr fd1 else "Unknown Transaction"

/-- The amount computation of the row normalizer (csvParser.ts lines
57-67): an `amount` column wins; else a debit AND credit pair combines as
`credit magnitude - debit magnitude`; else 0. -/
def rowAmount (m : ColMap) (row : List String) : ℚ :=
  if m.amount ≠ -1 then parseAmount (rowGet row m.amount)
  else if m.debit ≠ -1 ∧ m.credit ≠ -1 then
    let debit := parseAmount (rowGet row m.debit)
    let credit := parseAmount (rowGet row m.credit)
    (if debit ≠ 0 then -|debit| else 0) + (if credit ≠ 0 then |credit| else 0)
  else 0

/-- One data row of the `parseCSV` loop (csvParser.ts lines 20-79): rows
with fewer than 2 fields are dropped, as are rows whose date cell is falsy
or whose normalized date is empty. -/
def rowRecord (m : ColMap) (delim : Char) (line : List Char) : Option RawTransaction :=
  let row := parseLine line delim
  if row.length < 2 then none
  else
    let dateStr := rowGet row m.date
    let fullDescription := buildDescription m row
    let amount := rowAmount m row
    if truthy dateStr then
      let normalizedDate := normalizeDate (cleanString (jsStr dateStr))
      if normalizedDate ≠ "" then
        some ⟨normalizedDate, cleanString fullDescription, amount⟩
      else none
    else none

/-- `parseCSV` (csvParser.ts lines 3-82): split and filter lines, detect
the delimiter over the first 10, locate the header, then normalize every
later row (the `for` loop is the `filterMap` of `rowRecord` over the rows
after the header index). -/
def parseCSV (content : String) : List RawTransaction :=
  let lines := contentLines content
  if lines.length = 0 then []
  else
    let delimiter := detectDelimiter (lines.take 10)
    let h := findHeaders lines delimiter
    if h.headerIndex = -1 then []
    else
      (lines.drop (h.headerIndex + 1).toNat).filterMap
        (rowRecord h.columnMap delimiter)

/-! ### Categorization rule engine (categorizer.ts lines 4-316, 380-405) -/

/-- A rule of `CATEGORY_RULES` (the optional `patterns` field of the source
interface is never populated nor read, so it is not modelled). -/
structure CategoryRule where
  category : String
  keywords : List String

/-- `CATEGORY_RULES` (categorizer.ts lines 10-316), order preserved. -/
def CATEGORY_RULES : List CategoryRule := [
  ⟨"Cash", [
    "bargeldauszahlung", "bargeld", "geldautomat", "atm", "cash withdrawal", "cashout",
    "auszahlung", "geldabhebung", "abhebung", "bankautomat", "cashautomat",
    "withdrawal", "cash back", "cashback atm", "geld abheben"]⟩,
  ⟨"Groceries", [
    "lidl", "aldi", "rewe", "edeka", "penny", "netto", "kaufland", "norma", "real",
    "rossmann", "dm drogerie", "dm-drogerie", "mueller drogerie", "budni",
    "tegut", "globus", "hit markt", "famila", "combi", "marktkauf", "e center",
    "nahkauf", "cap markt", "wasgau", "trinkgut", "getränke", "getraenke",
    "lebensmittel", "supermarkt", "markt", "biomarkt", "bio markt", "drogerie",
    "reformhaus", "bioladen", "wochenmarkt", "bauernmarkt",
    "walmart", "target", "costco", "kroger", "safeway", "whole foods", "wholefoods",
    "trader joe", "publix", "wegmans", "heb", "food lion", "giant",
    "stop & shop", "shoprite", "meijer", "winco", "food4less", "grocery", "supermarket",
    "market basket", "sprouts", "fresh market", "piggly wiggly",
    "carrefour", "tesco", "sainsbury", "asda", "morrisons", "waitrose",
    "coles", "woolworths", "iga", "loblaws", "sobeys", "metro grocery",
    "albert heijn", "jumbo", "spar", "coop", "migros", "delhaize"]⟩,
  ⟨"Dining", [
    "restaurant", "gaststätte", "gaststaette", "gasthof", "gasthaus", "wirtshaus",
    "cafe", "kaffee", "konditorei", "baeckerei", "bäckerei", "backwerk", "backery",
    "doener", "döner", "kebab", "kebap", "imbiss", "schnellimbiss", "currywurst",
    "pizzeria", "pizza", "lieferando", "lieferheld", "foodora", "wolt",
    "mcdonald", "burger king", "wendy", "taco bell", "chipotle", "subway", "panera",
    "starbucks", "dunkin", "chick-fil-a", "chick fil a", "popeyes", "kfc", "pizza hut",
    "domino", "papa john", "little caesars", "five guys", "in-n-out", "shake shack",
    "panda express", "olive garden", "applebee", "chili", "ihop", "denny", "waffle house",
    "buffalo wild", "hooters", "outback", "red lobster", "cheesecake factory", "nando",
    "diner", "grill", "bistro", "eatery", "kitchen", "sushi", "thai", "chinese",
    "mexican", "italian", "indian", "vietnames", "korean", "japanese",
    "doordash", "grubhub", "uber eats", "ubereats", "postmates", "seamless", "caviar",
    "deliveroo", "just eat", "menulog", "delivery hero", "gorillas", "flink", "getir"]⟩,
  ⟨"Shopping", [
    "amazon", "amzn", "ebay", "etsy", "aliexpress", "wish", "shein", "temu",
    "best buy", "bestbuy", "apple store", "microsoft store", "samsung",
    "nike", "adidas", "foot locker", "finish line", "nordstrom", "macy", "jcpenney",
    "kohls", "ross", "tjmaxx", "tj maxx", "marshalls", "burlington", "old navy",
    "gap", "banana republic", "h&m", "zara", "uniqlo", "forever 21", "urban outfitters",
    "ikea", "home depot", "lowes", "bed bath", "williams sonoma", "pottery barn",
    "crate & barrel", "wayfair", "overstock", "pier 1", "michaels", "joann",
    "hobby lobby", "staples", "office depot", "office max", "dollar general",
    "dollar tree", "family dollar", "99 cents", "five below", "big lots",
    "gamestop", "steam", "playstation", "xbox", "nintendo"]⟩,
  ⟨"Subscriptions", [
    "netflix", "spotify", "apple music", "amazon prime", "prime video", "hulu",
    "disney+", "disney plus", "hbo max", "hbo", "paramount+", "peacock", "youtube",
    "youtube premium", "twitch", "crunchyroll", "audible", "kindle unlimited",
    "microsoft 365", "office 365", "adobe", "dropbox", "google one", "icloud",
    "linkedin premium", "medium", "substack", "patreon", "onlyfans",
    "gym membership", "planet fitness", "la fitness", "anytime fitness", "equinox",
    "peloton", "classpass", "headspace", "calm", "duolingo", "masterclass",
    "skillshare", "coursera", "udemy", "brilliant", "subscription", "monthly",
    "annual membership", "recurring", "membership fee"]⟩,
  ⟨"Transportation", [
    "db ", "deutsche bahn", "bahn", "ice ", "regional", "s-bahn", "sbahn", "u-bahn", "ubahn",
    "kvb", "rvk", "vrr", "vrs", "mvv", "bvg", "hvv", "rmv", "vgn", "ssb",
    "nextbike", "stadtrad", "call a bike", "lime", "tier", "voi", "bird", "circ",
    "carsharing", "share now", "miles", "sixt share", "flinkster",
    "tankstelle", "aral", "total", "esso", "jet ", "star ", "agip", "avia",
    "shell", "bp", "eni", "tankstellen", "kraftstoff", "benzin", "diesel", "tanken",
    "parken", "parkhaus", "parkplatz", "parkschein", "easypark", "park and joy",
    "strafzettel", "knöllchen", "bußgeld", "bussgeld", "blitzer",
    "tüv", "tuev", "dekra", "kfz", "werkstatt", "reparatur", "atu", "a.t.u",
    "taxi", "freenow", "free now", "mytaxi", "uber", "bolt", "blablacar",
    "flixbus", "flixmobility", "fernbus",
    "lyft", "cab", "grab", "didi", "ola", "gett",
    "exxon", "mobil", "chevron", "texaco", "arco", "valero",
    "sunoco", "citgo", "marathon", "phillips 66", "gulf", "speedway", "wawa gas",
    "sheetz", "quiktrip", "racetrac", "fuel", "petrol", "gas station", "gasoline",
    "parking", "parkwhiz", "spothero", "parkopedia", "meter", "garage",
    "transit", "metro", "subway fare", "bus fare", "train", "amtrak", "bart",
    "mta", "cta", "wmata", "septa", "path", "lirr", "metra", "caltrain",
    "toll", "ezpass", "fastrak", "sunpass", "i-pass", "peach pass",
    "car wash", "oil change", "jiffy lube", "valvoline", "pep boys", "autozone",
    "advance auto", "o'reilly", "napa", "tire", "goodyear", "firestone", "discount tire"]⟩,
  ⟨"Travel", [
    "airline", "airways", "delta", "united", "american airlines", "southwest",
    "jetblue", "spirit", "frontier", "alaska air", "hawaiian", "british airways",
    "lufthansa", "air france", "klm", "emirates", "qatar", "singapore air",
    "cathay", "qantas", "virgin", "ryanair", "easyjet", "vueling", "wizz air",
    "hotel", "marriott", "hilton", "hyatt", "ihg", "holiday inn", "best western",
    "wyndham", "radisson", "sheraton", "westin", "doubletree", "hampton inn",
    "la quinta", "motel 6", "super 8", "comfort inn", "quality inn", "days inn",
    "airbnb", "vrbo", "booking.com", "expedia", "hotels.com", "trivago",
    "kayak", "priceline", "hotwire", "orbitz", "travelocity", "tripadvisor",
    "hertz", "avis", "enterprise", "budget", "national", "alamo", "sixt", "europcar",
    "turo", "zipcar", "getaround", "cruise", "carnival", "royal caribbean", "norwegian"]⟩,
  ⟨"Utilities", [
    "electric", "electricity", "power company", "pge", "pg&e", "con edison",
    "duke energy", "dominion", "xcel", "entergy", "southern company", "dte",
    "aps", "pepco", "pseg", "comed", "oncor", "florida power", "georgia power",
    "water bill", "water utility", "sewer", "trash", "waste management", "republic services",
    "gas bill", "natural gas", "atmos", "nicor", "spire", "centerpoint",
    "internet", "comcast", "xfinity", "spectrum", "at&t", "verizon", "tmobile",
    "t-mobile", "sprint", "cox", "frontier", "centurylink", "lumen", "optimum",
    "altice", "charter", "mediacom", "suddenlink", "windstream", "hughesnet",
    "phone bill", "mobile", "wireless", "cellular", "cricket", "boost mobile",
    "metro by t-mobile", "mint mobile", "visible", "google fi", "us cellular"]⟩,
  ⟨"Housing", [
    "miete", "mietvertrag", "vermieter", "hausverwaltung", "wohnungsbau",
    "studierendenwerk", "studentenwerk", "wohnheim", "nebenkost", "warmmiete", "kaltmiete",
    "hausgeld", "wohngeld", "kaution", "mietkaution", "immobilie", "grundsteuer",
    "koelnerstudierendenwerk", "kölnerstudierendenwerk", "studentenwohnheim",
    "rent", "lease", "landlord", "property management", "apartment", "condo fee",
    "hoa", "homeowner", "mortgage", "home loan", "wells fargo home", "quicken loans",
    "rocket mortgage", "chase home", "bank of america home", "usaa home",
    "property tax", "real estate", "escrow", "title company", "closing cost",
    "home insurance", "renters insurance", "homeowners insurance", "lemonade",
    "state farm home", "allstate home", "geico home", "progressive home",
    "furniture", "mattress", "casper", "purple", "tempurpedic", "sealy",
    "rooms to go", "ashley", "la-z-boy", "ethan allen", "restoration hardware",
    "maintenance", "repair", "plumber", "electrician", "hvac", "handyman",
    "cleaning service", "maid", "merry maids", "molly maid", "the maids",
    "ikea", "möbel", "moebel", "einrichtung"]⟩,
  ⟨"Health", [
    "pharmacy", "cvs", "walgreens", "rite aid", "duane reade", "medicine", "drug store",
    "doctor", "physician", "medical", "clinic", "hospital", "urgent care", "emergency room",
    "dentist", "dental", "orthodontist", "optometrist", "eye doctor", "vision",
    "therapy", "therapist", "counseling", "mental health", "psychiatrist", "psychologist",
    "chiropractor", "physical therapy", "massage", "spa", "wellness",
    "insurance", "blue cross", "aetna", "cigna", "humana", "kaiser", "anthem",
    "unitedhealthcare", "uhc", "health plan", "copay", "deductible",
    "gym", "fitness", "crossfit", "orangetheory", "soulcycle", "barry's", "f45",
    "vitamin", "gnc", "supplement", "protein", "nutrition"]⟩,
  ⟨"Entertainment", [
    "movie", "cinema", "amc", "regal", "cinemark", "imax", "theater", "theatre",
    "concert", "ticketmaster", "stubhub", "seatgeek", "vivid seats", "eventbrite",
    "sports", "game ticket", "nba", "nfl", "mlb", "nhl", "mls", "stadium",
    "bowling", "arcade", "dave & buster", "main event", "topgolf", "golf course",
    "amusement", "theme park", "disney", "universal", "six flags", "legoland",
    "zoo", "aquarium", "museum", "art gallery", "exhibition",
    "bar", "pub", "tavern", "brewery", "winery", "liquor", "alcohol", "beer", "wine",
    "club", "nightclub", "lounge", "karaoke", "billiards", "pool hall",
    "book", "barnes & noble", "books a million", "comic", "magazine"]⟩,
  ⟨"Services", [
    "haircut", "barber", "salon", "spa", "nail", "manicure", "pedicure", "wax",
    "dry clean", "laundry", "laundromat", "tailor", "alteration",
    "post office", "usps", "ups", "fedex", "dhl", "shipping", "postage", "mail",
    "lawyer", "attorney", "legal", "notary", "accountant", "tax prep", "h&r block",
    "turbotax", "jackson hewitt", "liberty tax",
    "pet", "vet", "veterinary", "petco", "petsmart", "chewy", "grooming", "boarding",
    "daycare", "babysitter", "nanny", "care.com", "sittercity",
    "storage", "public storage", "extra space", "cubesmart", "life storage",
    "moving", "u-haul", "uhaul", "penske", "budget truck", "pods"]⟩,
  ⟨"Education", [
    "universität", "universitaet", "universitätskasse", "universitaetskasse", "uni ",
    "hochschule", "fachhochschule", "fh ", "semesterbeitrag", "studiengebühr",
    "studiengebuehr", "studienbeitrag", "immatrikulation", "studierendensekretariat",
    "studentenkanzlei", "bafög", "bafoeg", "bildungskredit", "studierende",
    "mensa", "studentenausweis", "semesterticket", "asta", "fachschaft",
    "volkshochschule", "vhs", "sprachkurs", "deutschkurs", "sprachschule",
    "tuition", "university", "college", "school", "education", "academy",
    "student loan", "sallie mae", "navient", "nelnet", "great lakes", "fedloan",
    "course", "class", "training", "certification", "workshop", "seminar",
    "textbook", "chegg", "amazon textbook", "cengage", "pearson", "mcgraw hill",
    "tutoring", "tutor", "kumon", "sylvan", "mathnasium", "kaplan", "princeton review",
    "test prep", "sat", "act", "gre", "gmat", "lsat", "mcat",
    "udemy", "coursera", "skillshare", "masterclass", "linkedin learning"]⟩,
  ⟨"Income", [
    "gehalt", "lohn", "lohnzahlung", "gehaltszahlung", "arbeitgeber", "gutschrift",
    "eingang", "einzahlung", "überweisung eingang", "ueberweisung eingang",
    "rückerstattung", "rueckerstattung", "erstattung", "rückvergütung",
    "kindergeld", "elterngeld", "wohngeld", "bafög", "bafoeg", "stipendium",
    "dividende", "zinsen", "kapitalertrag", "mieteinnahmen", "nebenverdienst",
    "payroll", "salary", "wages", "direct deposit", "paycheck", "compensation",
    "bonus", "commission", "stipend", "reimbursement", "refund", "cashback",
    "dividend", "interest earned", "interest payment", "investment income",
    "rental income", "freelance", "consulting", "contractor", "side gig",
    "venmo from", "zelle from", "paypal from", "received from", "deposit from",
    "tax refund", "irs", "state refund", "rebate", "reward", "credit adjustment"]⟩,
  ⟨"Transfer", [
    "überweisung", "ueberweisung", "dauerauftrag", "lastschrift", "abbuchung",
    "einzug", "sepa", "internal", "umbuchung", "kontoübertrag", "kontouebertrag",
    "transfer", "xfer", "payment to", "payment from", "send money", "sent to",
    "venmo", "zelle", "paypal", "cash app", "cashapp", "square cash", "wise",
    "wire transfer", "ach", "direct debit", "auto pay", "autopay",
    "credit card payment", "card payment", "pay bill", "bill pay",
    "savings transfer", "checking transfer", "move money", "internal transfer",
    "investment transfer", "brokerage", "fidelity", "vanguard", "schwab",
    "robinhood", "td ameritrade", "etrade", "merrill", "betterment", "wealthfront",
    "trade republic", "scalable", "flatex", "comdirect", "dkb", "n26", "revolut"]⟩,
  ⟨"Fees", [
    "gebühr", "gebuehr", "kontoführung", "kontofuehrung", "kontogebühr",
    "überziehung", "ueberziehung", "dispozins", "sollzins", "mahngebühr",
    "rücklastschrift", "ruecklastschrift", "strafzins", "negativzins",
    "gez", "rundfunkbeitrag", "beitragsservice",
    "fee", "charge", "overdraft", "nsf", "insufficient funds", "late fee",
    "service charge", "maintenance fee", "monthly fee", "annual fee",
    "atm fee", "foreign transaction", "currency conversion", "exchange fee",
    "interest charge", "finance charge", "penalty", "fine",
    "tax", "irs", "state tax", "property tax", "sales tax", "excise"]⟩,
  ⟨"Insurance", [
    "versicherung", "haftpflicht", "hausrat", "krankenversicherung", "krankenkasse",
    "aok", "tk", "techniker", "barmer", "dak", "ikk", "bkk", "knappschaft",
    "allianz", "ergo", "huk", "huk-coburg", "debeka", "axa", "generali",
    "lebensversicherung", "rentenversicherung", "berufsunfähigkeit", "kfz-versicherung",
    "insurance", "geico", "state farm", "allstate", "progressive", "liberty mutual",
    "nationwide", "farmers", "usaa", "travelers", "aetna", "cigna", "humana",
    "blue cross", "united health", "anthem", "kaiser"]⟩]

/-- The income short-circuit patterns of `categorizeTransaction`
(categorizer.ts lines 384-387); each regex `/p/i` is a case-insensitive
substring test. -/
def incomePatterns : List String :=
  ["deposit", "payroll", "salary", "direct dep", "refund",
   "transfer from", "from savings", "interest earned", "dividend"]

/-- `pattern.test(description)` for a `/p/i` literal-substring regex. -/
def patternTest (p : String) (description : String) : Bool :=
  hasSub (jsLower description) (jsLower p)

/-- Whether some income pattern matches (the first `for` loop of
`categorizeTransaction`). -/
def incomeMatch (description : String) : Bool :=
  incomePatterns.any (fun p => patternTest p description)

/-- The rule-table loop of `categorizeTransaction` (categorizer.ts lines
396-402): first rule one of whose lowercased keywords is a substring of
the lowercased description. -/
def findCategory (lowerDesc : String) : List CategoryRule → String
  | [] => "Other"
  | r :: rest =>
      if r.keywords.any (fun k => hasSub lowerDesc (jsLower k)) then r.category
      else findCategory lowerDesc rest

/-- `categorizeTransaction` (categorizer.ts lines 380-405). -/
def categorizeTransaction (description : String) : String :=
  if incomeMatch description then "Income"
  else findCategory (jsLower description) CATEGORY_RULES

/-! ### Merchant name cleaner (`cleanMerchantName`, categorizer.ts lines
319-377). Each regex replace is a scanner on the character list; the
global ones carry fuel (one unit per consumed character) so that every
definition stays structural and executable. -/

/-- First anchored prefix alternation, alternatives in source order. -/
def prefixGroup1 : List String :=
  ["PAYPAL *", "PAYPAL*", "PP*", "SQ *", "SQ*", "SQUARE *", "TST*", "CHK ",
   "DEBIT ", "CREDIT ", "POS ", "ACH ", "CHECKCARD ", "PURCHASE ", "PREAUTH "]

/-- Second anchored prefix alternation. -/
def prefixGroup2 : List String :=
  ["VISA ", "MASTERCARD ", "AMEX ", "DISCOVER ", "CARD ", "CHECK CARD ",
   "DEBIT CARD "]

/-- Third anchored prefix alternation; `AUTO-?PAY ` is its two expansions,
greedy alternative first. -/
def prefixGroup3 : List String :=
  ["ONLINE ", "INTERNET ", "WEB ", "MOBILE ", "RECURRING ", "AUTO-PAY ",
   "AUTOPAY "]

/-- One `replace(/^(a|b|...)/i, '')` on an upper-cased string: drop the
first alternative matching at the start. -/
def stripOnce (alts : List String) (l : List Char) : List Char :=
  match alts.find? (fun a => a.data.isPrefixOf l) with
  | some a => l.drop a.data.length
  | none => l

/-- The three prefix replaces applied in sequence (`for..of prefixes`). -/
def stripPrefixGroups (l : List Char) : List Char :=
  stripOnce prefixGroup3 (stripOnce prefixGroup2 (stripOnce prefixGroup1 l))

/-- Generic global-regex removal: at each position try a match; on success
drop it and continue after it, otherwise keep the character. Fuel falls by
one per consumed character, so `length + 1` units are enough. -/
def scanRemove (tryHere : List Char → Option (List Char)) :
    ℕ → List Char → List Char
  | 0, l => l
  | _ + 1, [] => []
  | fuel + 1, c :: t =>
      match tryHere (c :: t) with
      | some rest => scanRemove tryHere fuel rest
      | none => c :: scanRemove tryHere fuel t

/-- Match of `\s+\d{4,}` at the head: the remainder after it. -/
def tryLongNum (l : List Char) : Option (List Char) :=
  if (l.takeWhile isWs).isEmpty then none
  else
    let r := l.dropWhile isWs
    if 4 ≤ (r.takeWhile Char.isDigit).length then some (r.dropWhile Char.isDigit)
    else none

/-- Match of `\s+#\d+` at the head. -/
def tryHashId (l : List Char) : Option (List Char) :=
  if (l.takeWhile isWs).isEmpty then none
  else
    match l.dropWhile isWs with
    | '#' :: r2 =>
        if (r2.takeWhile Char.isDigit).isEmpty then none
        else some (r2.dropWhile Char.isDigit)
    | _ => none

/-- Match of `\s+\d{1,2}\/\d{1,2}` at the head (the trailing group is
greedy but capped at two digits). -/
def tryDateFrag (l : List Char) : Option (List Char) :=
  if (l.takeWhile isWs).isEmpty then none
  else
    let r := l.dropWhile isWs
    let d1 := r.takeWhile Char.isDigit
    if d1.length = 1 ∨ d1.length = 2 then
      match r.dropWhile Char.isDigit with
      | '/' :: r2 =>
          let d2 := r2.takeWhile Char.isDigit
          if d2.isEmpty then none else some (r2.drop (min 2 d2.length))
      | _ => none
    else none

def isUpperAZ (c : Char) : Bool := 65 ≤ c.toNat && c.toNat ≤ 90

/-- Match of `\s+[A-Z]{2}\s*\d{5}` at the head (exactly five digits are
consumed; further digits stay). -/
def tryZip (l : List Char) : Option (List Char) :=
  if (l.takeWhile isWs).isEmpty then none
  else
    match l.dropWhile isWs with
    | c1 :: c2 :: r2 =>
        if isUpperAZ c1 && isUpperAZ c2 then
          let r3 := r2.dropWhile isWs
          if 5 ≤ (r3.takeWhile Char.isDigit).length then some (r3.drop 5) else none
        else none
    | _ => none

/-- Match of `\s+\d{3}-\d{3}-\d{4}` at the head (`{3}` demands the digit
run be exactly three; four consumed digits of the last group). -/
def tryPhone (l : List Char) : Option (List Char) :=
  if (l.takeWhile isWs).isEmpty then none
  else
    let r := l.dropWhile isWs
    if (r.takeWhile Char.isDigit).length = 3 then
      match r.dropWhile Char.isDigit with
      | '-' :: r2 =>
          if (r2.takeWhile Char.isDigit).length = 3 then
            match r2.dropWhile Char.isDigit with
            | '-' :: r3 =>
                if 4 ≤ (r3.takeWhile Char.isDigit).length then some (r3.drop 4)
                else none
            | _ => none
          else none
      | _ => none
    else none

def remLongNum (l : List Char) : List Char := scanRemove tryLongNum (l.length + 1) l

def remHashId (l : List Char) : List Char := scanRemove tryHashId (l.length + 1) l

def remDateFrag (l : List Char) : List Char := scanRemove tryDateFrag (l.length + 1) l

def remZip (l : List Char) : List Char := scanRemove tryZip (l.length + 1) l

def remPhone (l : List Char) : List Char := scanRemove tryPhone (l.length + 1) l

def countryCodes : List String :=
  ["USA", "US", "UK", "CA", "AU", "DE", "FR", "NL", "IT", "ES"]

/-- `replace(/\s+(USA|US|...)$/i, '')`: on an upper-cased string a match is
a whitespace run carrying a country code to the end; the leftmost such
suffix is removed whole. -/
def remCountry : List Char → List Char
  | [] => []
  | c :: t =>
      if isWs c ∧ countryCodes.any (fun code => (c :: t).dropWhile isWs = code.data)
      then []
      else c :: remCountry t

/-- `replace(/\*+/g, ' ')`: every maximal asterisk run becomes one space. -/
def destarL : List Char → List Char
  | [] => []
  | ['*'] => [' ']
  | '*' :: '*' :: t => destarL ('*' :: t)
  | '*' :: c :: t => ' ' :: destarL (c :: t)
  | c :: t => c :: destarL t

/-- The six noise removals of csvParser's merchant cleaner in source
order (before the asterisk and whitespace steps). -/
def noiseStripped (l : List Char) : List Char :=
  remPhone (remCountry (remZip (remDateFrag (remHashId (remLongNum l)))))

/-- JS `split(' ')` (a literal one-space separator). -/
def splitSp : List Char → List (List Char)
  | [] => [[]]
  | c :: t =>
      if c = ' ' then [] :: splitSp t
      else
        match splitSp t with
        | [] => [[c]]
        | g :: gs => (c :: g) :: gs

/-- JS `join(' ')`. -/
def joinSp : List (List Char) → List Char
  | [] => []
  | [w] => w
  | w :: ws => w ++ ' ' :: joinSp ws

/-- `word.charAt(0).toUpperCase() + word.slice(1)`. -/
def capWord : List Char → List Char
  | [] => []
  | c :: t => upperChar c :: t

/-- The title-case step: lower-case everything, split on single spaces,
capitalize each word's first character, re-join. -/
def titleL (l : List Char) : List Char :=
  joinSp ((splitSp (l.map lowerChar)).map capWord)

/-- `brandCorrections` (categorizer.ts lines 353-367), insertion order. -/
def brandCorrections : List (String × String) :=
  [("Amzn", "Amazon"), ("Amzn Mktp", "Amazon"), ("Amazon Mktplace", "Amazon"),
   ("Amazon.Com", "Amazon"), ("Wm Supercenter", "Walmart"), ("Wal-Mart", "Walmart"),
   ("Mcdonald's", "McDonald's"), ("Mcdonalds", "McDonald's"), ("Sbux", "Starbucks"),
   ("Chick-Fil-A", "Chick-fil-A"), ("Uber Trip", "Uber"), ("Uber Eats", "Uber Eats"),
   ("Lyft Ride", "Lyft")]

/-- The brand-correction loop: the first entry whose key is a
case-insensitive substring replaces the whole string (`break`). -/
def brandStep (t : List Char) : List Char :=
  match brandCorrections.find?
      (fun e => hasSubL (e.1.data.map lowerChar) (t.map lowerChar)) with
  | some e => e.2.data
  | none => t

/-- `cleanMerchantName` (categorizer.ts lines 319-377): upper-case, strip
prefixes, remove noise fragments, de-asterisk, collapse and trim
whitespace, title-case, brand-correct; an empty result falls back to the
raw description (`return cleaned || description`). -/
def cleanMerchantName (description : String) : String :=
  let u := description.data.map upperChar
  let v := stripPrefixGroups u
  let w := noiseStripped v
  let x := trimL (collapseWsL (destarL w))
  let t := titleL x
  let b := brandStep t
  if b.isEmpty then description else ⟨b⟩

/-! ### Observational reformulations used by the claims. These are stated
from the claims' words (role classification of a header cell, first and
last matching indices) and proved equal to the scanning code. -/

/-- A cell the scan treats as a date header (first branch of the chain). -/
def cDate (c : String) : Bool := mDate c

/-- A cell the scan treats as an amount header (second branch). -/
def cAmount (c : String) : Bool := !mDate c && mAmount c

def cPayee (c : String) : Bool := !mDate c && !mAmount c && mPayee c

def cMemo (c : String) : Bool := !mDate c && !mAmount c && !mPayee c && mMemo c

def cDebit (c : String) : Bool :=
  !mDate c && !mAmount c && !mPayee c && !mMemo c && mDebit c

def cCredit (c : String) : Bool :=
  !mDate c && !mAmount c && !mPayee c && !mMemo c && !mDebit c && mCredit c

/-- Index (counting from `i`) of the first cell satisfying `p`; `-1`
when none does. -/
def firstIdxFrom (p : String → Bool) : Int → List String → Int
  | _, [] => -1
  | i, c :: t => if p c then i else firstIdxFrom p (i + 1) t

/-- Index (counting from `i`) of the last cell satisfying `p`; `-1`
when none does. -/
def lastIdxFrom (p : String → Bool) : Int → List String → Int
  | _, [] => -1
  | i, c :: t =>
      let r := lastIdxFrom p (i + 1) t
      if r ≠ -1 then r else if p c then i else -1

/-- Last-assignment-wins update: a found index replaces the old value. -/
def lastUpd (old idx : Int) : Int := if idx = -1 then old else idx

/-- First-assignment-wins update: a found index lands only in an unset slot. -/
def firstUpd (old idx : Int) : Int := if old = -1 then idx else old

/-- The score a row earns: 3 points per date- or amount-matching cell,
2 points per payee-, memo-, debit- or credit-matching cell. -/
def rowPoints (cells : List String) : ℕ :=
  3 * cells.countP cDate + 3 * cells.countP cAmount +
  2 * cells.countP cPayee + 2 * cells.countP cMemo +
  2 * cells.countP cDebit + 2 * cells.countP cCredit

/-! ## Theorems -/

/-- `hasSubL` finds exactly the contiguous runs: the defining property of
the JS `includes` model. -/
theorem hasSubL_ex (pat l : List Char) :
    hasSubL pat l = true ↔ ∃ u v, l = u ++ pat ++ v := by
  induction l with
  | nil =>
      simp only [hasSubL, List.isPrefixOf_iff_prefix]
      constructor
      · intro h
        exact ⟨[], [], by simpa using (List.prefix_nil.mp h).symm⟩
      · rintro ⟨u, v, h⟩
        have : pat = [] := by
          rcases List.append_eq_nil.mp h.symm with ⟨h1, h2⟩
          rcases List.append_eq_nil.mp h1 with ⟨-, h3⟩
          exact h3
        simp [this]
  | cons c t ih =>
      simp only [hasSubL, Bool.or_eq_true, List.isPrefixOf_iff_prefix, ih]
      constructor
      · rintro (⟨r, hr⟩ | ⟨u, v, hl⟩)
        · exact ⟨[], r, by simpa using hr.symm⟩
        · exact ⟨c :: u, v, by simp [hl]⟩
      · rintro ⟨u, v, hl⟩
        match u, hl with
        | [], hl => exact Or.inl ⟨v, by simpa using hl.symm⟩
        | x :: u', hl =>
            right
            exact ⟨u', v, by simpa using (by simpa using hl : c = x ∧ t = u' ++ (pat ++ v)).2⟩

/-- A string containing a pattern contains every contiguous run of the
pattern. -/
theorem hasSubL_of_within {pat big l : List Char}
    (hpat : ∃ u v, big = u ++ pat ++ v) (h : hasSubL big l = true) :
    hasSubL pat l = true := by
  rcases hasSubL_ex big l |>.mp h with ⟨u, v, rfl⟩
  rcases hpat with ⟨u', v', rfl⟩
  exact hasSubL_ex pat _ |>.mpr ⟨u ++ u', v' ++ v, by simp⟩

/-- C5. Every description matching one of the claim's income patterns
(deposit, payroll, salary, direct deposit, refund, "transfer from",
"from savings", interest earned, dividend — case-insensitively) makes
`categorizeTransaction` return "Income" at once, before the rule table is
consulted and with no amount in sight (the function takes none). -/
theorem income_shortcircuit (d : String)
    (h : (["deposit", "payroll", "salary", "direct deposit", "refund",
           "transfer from", "from savings", "interest earned",
           "dividend"].any (fun p => hasSub (jsLower d) p)) = true) :
    categorizeTransaction d = "Income" := by
  have hin : incomeMatch d = true := by
    rcases List.any_eq_true.mp h with ⟨p, hp, hsub⟩
    unfold incomeMatch
    refine List.any_eq_true.mpr ?_
    simp only [List.mem_cons, List.not_mem_nil, or_false] at hp
    unfold hasSub at hsub
    rcases hp with rfl | rfl | rfl | rfl | rfl | rfl | rfl | rfl | rfl
    · exact ⟨"deposit", by simp [incomePatterns], by
        simpa [patternTest, hasSub] using hsub⟩
    · exact ⟨"payroll", by simp [incomePatterns], by
        simpa [patternTest, hasSub] using hsub⟩
    · exact ⟨"salary", by simp [incomePatterns], by
        simpa [patternTest, hasSub] using hsub⟩
    · refine ⟨"direct dep", by simp [incomePatterns], ?_⟩
      have hwithin : ∃ u v, "direct deposit".data =
          u ++ ("direct dep").data ++ v := ⟨[], "osit".data, by decide⟩
      simpa [patternTest, hasSub] using hasSubL_of_within hwithin hsub
    · exact ⟨"refund", by simp [incomePatterns], by
        simpa [patternTest, hasSub] using hsub⟩
    · exact ⟨"transfer from", by simp [incomePatterns], by
        simpa [patternTest, hasSub] using hsub⟩
    · exact ⟨"from savings", by simp [incomePatterns], by
        simpa [patternTest, hasSub] using hsub⟩
    · exact ⟨"interest earned", by simp [incomePatterns], by
        simpa [patternTest, hasSub] using hsub⟩
    · exact ⟨"dividend", by simp [incomePatterns], by
        simpa [patternTest, hasSub] using hsub⟩
  simp [categorizeTransaction, hin]

/-- Witness for C5: "PAYROLL DEPOSIT" matches the claim's patterns and is
classified as Income. -/
theorem income_shortcircuit_witness :
    ((["deposit", "payroll", "salary", "direct deposit", "refund",
       "transfer from", "from savings", "interest earned",
       "dividend"].any (fun p => hasSub (jsLower "PAYROLL DEPOSIT") p)) = true) ∧
    categorizeTransaction "PAYROLL DEPOSIT" = "Income" :=
  ⟨by decide, income_shortcircuit "PAYROLL DEPOSIT" (by decide)⟩

/-- The rule-table loop returns exactly the first matching rule's category
(`find?` form), defaulting to "Other". -/
theorem findCategory_eq_find (ld : String) (rules : List CategoryRule) :
    findCategory ld rules =
      (match rules.find?
          (fun r => r.keywords.any (fun k => hasSub ld (jsLower k))) with
       | some r => r.category
       | none => "Other") := by
  induction rules with
  | nil => rfl
  | cons r rest ih =>
      by_cases h : r.keywords.any (fun k => hasSub ld (jsLower k)) = true
      · simp [findCategory, List.find?_cons, h]
      · simp only [Bool.not_eq_true] at h
        simp [findCategory, List.find?_cons, h, ih]

/-- C6. A description missed by the income short-circuit is categorized by
the first rule of the ordered table one of whose keywords is a plain
lowercase substring; "Other" when no rule matches. In particular
"LIDL SAGT DANKE" lands in Groceries and "NETFLIX.COM" in Subscriptions. -/
theorem categorize_first_match :
    (∀ d : String, incomeMatch d = false →
      categorizeTransaction d =
        (match CATEGORY_RULES.find?
            (fun r => r.keywords.any (fun k => hasSub (jsLower d) (jsLower k))) with
         | some r => r.category
         | none => "Other")) ∧
    categorizeTransaction "LIDL SAGT DANKE" = "Groceries" ∧
    categorizeTransaction "NETFLIX.COM" = "Subscriptions" := by
  refine ⟨fun d hd => ?_, by decide, by decide⟩
  simp [categorizeTransaction, hd, findCategory_eq_find]

/-- Witness for C6: "LIDL SAGT DANKE" escapes the income short-circuit and
is categorized by the first matching rule. -/
theorem categorize_first_match_witness :
    incomeMatch "LIDL SAGT DANKE" = false ∧
    categorizeTransaction "LIDL SAGT DANKE" =
      (match CATEGORY_RULES.find?
          (fun r => r.keywords.any
            (fun k => hasSub (jsLower "LIDL SAGT DANKE") (jsLower k))) with
       | some r => r.category
       | none => "Other") :=
  ⟨by decide, categorize_first_match.1 "LIDL SAGT DANKE" (by decide)⟩

/-- The defining equation of `lastIdxFrom` on a cons cell. -/
theorem lastIdxFrom_cons (p : String → Bool) (i : Int) (col : String)
    (rest : List String) :
    lastIdxFrom p i (col :: rest) =
      (if lastIdxFrom p (i + 1) rest ≠ -1 then lastIdxFrom p (i + 1) rest
       else if p col then i else -1) := rfl

/-- A non-matching cell leaves the last-index search to the tail. -/
theorem lastIdx_step_false {p : String → Bool} {col : String} {i : Int}
    {rest : List String} (h : p col = false) :
    lastIdxFrom p i (col :: rest) = lastIdxFrom p (i + 1) rest := by
  rw [lastIdxFrom_cons]
  by_cases hr : lastIdxFrom p (i + 1) rest = -1 <;> simp [hr, h]

/-- A matching cell is the last index unless the tail holds a later one. -/
theorem lastIdx_step_true {p : String → Bool} {col : String} {i : Int}
    {rest : List String} (h : p col = true) :
    lastIdxFrom p i (col :: rest) =
      (if lastIdxFrom p (i + 1) rest = -1 then i else lastIdxFrom p (i + 1) rest) := by
  rw [lastIdxFrom_cons]
  by_cases hr : lastIdxFrom p (i + 1) rest = -1 <;> simp [hr, h]

theorem firstIdx_step_false {p : String → Bool} {col : String} {i : Int}
    {rest : List String} (h : p col = false) :
    firstIdxFrom p i (col :: rest) = firstIdxFrom p (i + 1) rest := by
  simp [firstIdxFrom, h]

theorem firstIdx_step_true {p : String → Bool} {col : String} {i : Int}
    {rest : List String} (h : p col = true) :
    firstIdxFrom p i (col :: rest) = i := by
  simp [firstIdxFrom, h]

theorem lastUpd_neg_one (old : Int) : lastUpd old (-1) = old := by simp [lastUpd]

theorem firstUpd_neg_one (old : Int) : firstUpd old (-1) = old := by
  unfold firstUpd; split <;> simp [*]

/-- Overwriting with the running index then folding the tail's last index
equals folding the combined last index (the last-wins discipline). -/
theorem lastUpd_match (old i r : Int) (hi : i ≠ -1) :
    lastUpd old (if r = -1 then i else r) = lastUpd i r := by
  unfold lastUpd
  by_cases hr : r = -1 <;> simp [hr, hi]

/-- Keeping an already-set slot then folding the tail's first index equals
folding the combined first index (the first-wins discipline). -/
theorem firstUpd_match (old i f : Int) (hi : i ≠ -1) :
    firstUpd (if old = -1 then i else old) f = firstUpd old i := by
  by_cases h : old = -1 <;> simp [firstUpd, h, hi]

/-- The header-row scan, characterized: date, amount, debit and credit
slots hold the LAST matching cell's index, payee and memo the FIRST;
the score adds 3 per date/amount match and 2 per other match. -/
theorem scanRowAux_spec (cells : List String) : ∀ (i : Int) (st : ScanState),
    0 ≤ i →
    scanRowAux i st cells =
      ⟨⟨lastUpd st.map.date (lastIdxFrom cDate i cells),
        firstUpd st.map.payee (firstIdxFrom cPayee i cells),
        firstUpd st.map.memo (firstIdxFrom cMemo i cells),
        lastUpd st.map.amount (lastIdxFrom cAmount i cells),
        lastUpd st.map.debit (lastIdxFrom cDebit i cells),
        lastUpd st.map.credit (lastIdxFrom cCredit i cells)⟩,
       st.score + rowPoints cells⟩ := by
  induction cells with
  | nil =>
      intro i st _
      simp only [scanRowAux, lastIdxFrom, firstIdxFrom, rowPoints,
        lastUpd_neg_one, firstUpd_neg_one, List.countP_nil]
      simp
  | cons col rest ih =>
      intro i st hi
      have hneg : i ≠ -1 := by omega
      rw [scanRowAux, ih (i + 1) _ (by omega)]
      have hDate : cDate col = mDate col := rfl
      by_cases h1 : mDate col
      all_goals by_cases h2 : mAmount col
      all_goals by_cases h3 : mPayee col
      all_goals by_cases h4 : mMemo col
      all_goals by_cases h5 : mDebit col
      all_goals by_cases h6 : mCredit col
      all_goals (
        first
        | (have hc : cDate col = true := by simp [cDate, h1]
           have hf2 : cAmount col = false := by simp [cAmount, h1]
           have hf3 : cPayee col = false := by simp [cPayee, h1]
           have hf4 : cMemo col = false := by simp [cMemo, h1]
           have hf5 : cDebit col = false := by simp [cDebit, h1]
           have hf6 : cCredit col = false := by simp [cCredit, h1]
           rw [lastIdx_step_true hc, lastIdx_step_false hf2,
             firstIdx_step_false hf3, firstIdx_step_false hf4,
             lastIdx_step_false hf5, lastIdx_step_false hf6]
           simp only [scanStep, h1, if_true]
           rw [lastUpd_match _ _ _ hneg]
           simp only [rowPoints, List.countP_cons, hc, hf2, hf3, hf4, hf5, hf6]
           refine congrArg₂ ScanState.mk rfl (by push_cast; ring))
        | (replace h1 : mDate col = false := by simpa using h1
           have hf1 : cDate col = false := by simp [cDate, h1]
           have hc : cAmount col = true := by simp [cAmount, h1, h2]
           have hf3 : cPayee col = false := by simp [cPayee, h2]
           have hf4 : cMemo col = false := by simp [cMemo, h2]
           have hf5 : cDebit col = false := by simp [cDebit, h2]
           have hf6 : cCredit col = false := by simp [cCredit, h2]
           rw [lastIdx_step_false hf1, lastIdx_step_true hc,
             firstIdx_step_false hf3, firstIdx_step_false hf4,
             lastIdx_step_false hf5, lastIdx_step_false hf6]
           simp only [scanStep, h1, h2, if_true, Bool.false_eq_true, if_false]
           rw [lastUpd_match _ _ _ hneg]
           simp only [rowPoints, List.countP_cons, hc, hf1, hf3, hf4, hf5, hf6]
           refine congrArg₂ ScanState.mk rfl (by push_cast; ring))
        | (replace h1 : mDate col = false := by simpa using h1
           replace h2 : mAmount col = false := by simpa using h2
           have hf1 : cDate col = false := by simp [cDate, h1]
           have hf2 : cAmount col = false := by simp [cAmount, h1, h2]
           have hc : cPayee col = true := by simp [cPayee, h1, h2, h3]
           have hf4 : cMemo col = false := by simp [cMemo, h3]
           have hf5 : cDebit col = false := by simp [cDebit, h3]
           have hf6 : cCredit col = false := by simp [cCredit, h3]
           rw [lastIdx_step_false hf1, lastIdx_step_false hf2,
             firstIdx_step_true hc, firstIdx_step_false hf4,
             lastIdx_step_false hf5, lastIdx_step_false hf6]
           simp only [scanStep, h1, h2, h3, if_true, Bool.false_eq_true, if_false]
           rw [show ({ st.map with payee := i } : ColMap) =
             { st.map with payee := i } from rfl]
           simp only [rowPoints, List.countP_cons, hc, hf1, hf2, hf4, hf5, hf6]
           refine congrArg₂ ScanState.mk ?_ (by push_cast; ring)
           by_cases hp : st.map.payee = -1 <;>
             simp [firstUpd, hp, hneg])
        | (replace h1 : mDate col = false := by simpa using h1
           replace h2 : mAmount col = false := by simpa using h2
           replace h3 : mPayee col = false := by simpa using h3
           have hf1 : cDate col = false := by simp [cDate, h1]
           have hf2 : cAmount col = false := by simp [cAmount, h1, h2]
           have hf3 : cPayee col = false := by simp [cPayee, h3]
           have hc : cMemo col = true := by simp [cMemo, h1, h2, h3, h4]
           have hf5 : cDebit col = false := by simp [cDebit, h4]
           have hf6 : cCredit col = false := by simp [cCredit, h4]
           rw [lastIdx_step_false hf1, lastIdx_step_false hf2,
             firstIdx_step_false hf3, firstIdx_step_true hc,
             lastIdx_step_false hf5, lastIdx_step_false hf6]
           simp only [scanStep, h1, h2, h3, h4, if_true, Bool.false_eq_true,
             if_false]
           simp only [rowPoints, List.countP_cons, hc, hf1, hf2, hf3, hf5, hf6]
           refine congrArg₂ ScanState.mk ?_ (by push_cast; ring)
           by_cases hp : st.map.memo = -1 <;>
             simp [firstUpd, hp, hneg])
        | (replace h1 : mDate col = false := by simpa using h1
           replace h2 : mAmount col = false := by simpa using h2
           replace h3 : mPayee col = false := by simpa using h3
           replace h4 : mMemo col = false := by simpa using h4
           have hf1 : cDate col = false := by simp [cDate, h1]
           have hf2 : cAmount col = false := by simp [cAmount, h1, h2]
           have hf3 : cPayee col = false := by simp [cPayee, h3]
           have hf4 : cMemo col = false := by simp [cMemo, h4]
           have hc : cDebit col = true := by simp [cDebit, h1, h2, h3, h4, h5]
           have hf6 : cCredit col = false := by simp [cCredit, h5]
           rw [lastIdx_step_false hf1, lastIdx_step_false hf2,
             firstIdx_step_false hf3, firstIdx_step_false hf4,
             lastIdx_step_true hc, lastIdx_step_false hf6]
           simp only [scanStep, h1, h2, h3, h4, h5, if_true, Bool.false_eq_true,
             if_false]
           rw [lastUpd_match _ _ _ hneg]
           simp only [rowPoints, List.countP_cons, hc, hf1, hf2, hf3, hf4, hf6]
           refine congrArg₂ ScanState.mk rfl (by push_cast; ring))
        | (replace h1 : mDate col = false := by simpa using h1
           replace h2 : mAmount col = false := by simpa using h2
           replace h3 : mPayee col = false := by simpa using h3
           replace h4 : mMemo col = false := by simpa using h4
           replace h5 : mDebit col = false := by simpa using h5
           have hf1 : cDate col = false := by simp [cDate, h1]
           have hf2 : cAmount col = false := by simp [cAmount, h1, h2]
           have hf3 : cPayee col = false := by simp [cPayee, h3]
           have hf4 : cMemo col = false := by simp [cMemo, h4]
           have hf5 : cDebit col = false := by simp [cDebit, h5]
           have hc : cCredit col = true := by simp [cCredit, h1, h2, h3, h4, h5, h6]
           rw [lastIdx_step_false hf1, lastIdx_step_false hf2,
             firstIdx_step_false hf3, firstIdx_step_false hf4,
             lastIdx_step_false hf5, lastIdx_step_true hc]
           simp only [scanStep, h1, h2, h3, h4, h5, h6, if_true,
             Bool.false_eq_true, if_false]
           rw [lastUpd_match _ _ _ hneg]
           simp only [rowPoints, List.countP_cons, hc, hf1, hf2, hf3, hf4, hf5]
           refine congrArg₂ ScanState.mk rfl (by push_cast; ring))
        | (replace h1 : mDate col = false := by simpa using h1
           replace h2 : mAmount col = false := by simpa using h2
           replace h3 : mPayee col = false := by simpa using h3
           replace h4 : mMemo col = false := by simpa using h4
           replace h5 : mDebit col = false := by simpa using h5
           replace h6 : mCredit col = false := by simpa using h6
           have hf1 : cDate col = false := by simp [cDate, h1]
           have hf2 : cAmount col = false := by simp [cAmount, h1, h2]
           have hf3 : cPayee col = false := by simp [cPayee, h3]
           have hf4 : cMemo col = false := by simp [cMemo, h4]
           have hf5 : cDebit col = false := by simp [cDebit, h5]
           have hf6 : cCredit col = false := by simp [cCredit, h6]
           rw [lastIdx_step_false hf1, lastIdx_step_false hf2,
             firstIdx_step_false hf3, firstIdx_step_false hf4,
             lastIdx_step_false hf5, lastIdx_step_false hf6]
           simp only [scanStep, h1, h2, h3, h4, h5, h6, Bool.false_eq_true,
             if_false]
           simp only [rowPoints, List.countP_cons, hf1, hf2, hf3, hf4, hf5, hf6]
           refine congrArg₂ ScanState.mk rfl (by push_cast; ring)))

theorem lastUpd_start (r : Int) : lastUpd (-1) r = r := by
  unfold lastUpd; split <;> simp [*]

theorem firstUpd_start (f : Int) : firstUpd (-1) f = f := by simp [firstUpd]

/-- C3 (amended). Scoring is as claimed (3 points per date/amount match, 2
per payee/memo/debit/credit match, every matching cell scores), but only
the `payee` and `memo` roles obey first-assignment-wins; `date`, `amount`,
`debit` and `credit` keep the LAST matching cell of the row (each later
match overwrites the slot). -/
theorem scanRow_assignment_discipline (cells : List String) :
    scanRow cells =
      ⟨⟨lastIdxFrom cDate 0 cells, firstIdxFrom cPayee 0 cells,
        firstIdxFrom cMemo 0 cells, lastIdxFrom cAmount 0 cells,
        lastIdxFrom cDebit 0 cells, lastIdxFrom cCredit 0 cells⟩,
       rowPoints cells⟩ := by
  have h := scanRowAux_spec cells 0 ⟨emptyMap, 0⟩ le_rfl
  simpa [scanRow, emptyMap, lastUpd_start, firstUpd_start] using h

/-- Counterexample to C3 as stated: in the header row `date;datum;amount`
both of the first two cells match date keywords, and the scan maps the
date role to index 1 — the later matching cell DID overwrite the earlier
assignment (first-assignment-wins would have kept index 0). -/
theorem findHeaders_overwrite_counterexample :
    (findHeaders ["date;datum;amount".data] ';').columnMap.date = 1 ∧
    ((1 : Int) ≠ 0) := ⟨by decide, by decide⟩

/-- C10. A selected header can map a lone debit (or lone credit) column
and no amount column — it still qualifies — but the amount computation
requires an amount column or a full debit/credit pair, so every record
such an input emits carries amount exactly 0. -/
theorem lone_debit_zero_amount (content : String) (r : RawTransaction)
    (h1 : (findHeaders (contentLines content)
        (detectDelimiter ((contentLines content).take 10))).columnMap.amount = -1)
    (h2 : (findHeaders (contentLines content)
        (detectDelimiter ((contentLines content).take 10))).columnMap.debit = -1 ∨
      (findHeaders (contentLines content)
        (detectDelimiter ((contentLines content).take 10))).columnMap.credit = -1)
    (hr : r ∈ parseCSV content) : r.amount = 0 := by
  unfold parseCSV at hr
  simp only at hr
  split at hr
  · exact absurd hr (List.not_mem_nil r)
  · split at hr
    · exact absurd hr (List.not_mem_nil r)
    · rcases List.mem_filterMap.mp hr with ⟨line, -, hrec⟩
      unfold rowRecord at hrec
      simp only at hrec
      split at hrec
      · exact absurd hrec (by simp)
      · split at hrec
        · split at hrec
          · injection hrec with h
            rw [← h]
            show rowAmount _ _ = 0
            rcases h2 with hd | hc
            · simp [rowAmount, h1, hd]
            · simp [rowAmount, h1, hc]
          · exact absurd hrec (by simp)
        · exact absurd hrec (by simp)

/-- Witness for C10: a two-line export whose header maps only a debit
column; its single record has a parseable debit cell of 50 yet amount 0. -/
theorem lone_debit_zero_amount_witness :
    ((findHeaders (contentLines "Date;Debit\n01.02.2023;50")
        (detectDelimiter ((contentLines "Date;Debit\n01.02.2023;50").take 10))).columnMap.amount
      = -1) ∧
    ((findHeaders (contentLines "Date;Debit\n01.02.2023;50")
        (detectDelimiter ((contentLines "Date;Debit\n01.02.2023;50").take 10))).columnMap.debit
      = -1 ∨
     (findHeaders (contentLines "Date;Debit\n01.02.2023;50")
        (detectDelimiter ((contentLines "Date;Debit\n01.02.2023;50").take 10))).columnMap.credit
      = -1) ∧
    (⟨"2023-02-01", "Unknown Transaction", 0⟩ : RawTransaction) ∈
      parseCSV "Date;Debit\n01.02.2023;50" ∧
    (⟨"2023-02-01", "Unknown Transaction", 0⟩ : RawTransaction).amount = 0 := by
  have h1 : (findHeaders (contentLines "Date;Debit\n01.02.2023;50")
      (detectDelimiter ((contentLines "Date;Debit\n01.02.2023;50").take 10))).columnMap.amount
      = -1 := by with_unfolding_all decide
  have h2 : (findHeaders (contentLines "Date;Debit\n01.02.2023;50")
      (detectDelimiter ((contentLines "Date;Debit\n01.02.2023;50").take 10))).columnMap.credit
      = -1 := by with_unfolding_all decide
  have hmem : (⟨"2023-02-01", "Unknown Transaction", 0⟩ : RawTransaction) ∈
      parseCSV "Date;Debit\n01.02.2023;50" := by
    have : parseCSV "Date;Debit\n01.02.2023;50" =
        [⟨"2023-02-01", "Unknown Transaction", 0⟩] := by with_unfolding_all decide
    simp [this]
  exact ⟨h1, Or.inr h2, hmem,
    lone_debit_zero_amount "Date;Debit\n01.02.2023;50" _ h1 (Or.inr h2) hmem⟩

/-- C4. Graceful degradation: an amount cell whose cleaned core fails
`parseFloat` yields 0; a date cell no parser accepts passes through as its
trimmed self; an input with no qualifying header row yields the empty
record list. (Every function here is total, so no exception can arise
from any input in the model.) -/
theorem degrade_defaults :
    (∀ s : String, amountParsed (parenStrip (jsTrim s)).1 = none →
      parseAmount (some s) = 0) ∧
    (∀ s : String, isoShape (jsTrim s).data = false →
      euMatch (jsTrim s) = none → usMatch (jsTrim s) = none →
      isoLikeMatch (jsTrim s) = none → jsDateParse (jsTrim s) = none →
      normalizeDate s = jsTrim s) ∧
    (∀ content : String,
      (findHeaders (contentLines content)
        (detectDelimiter ((contentLines content).take 10))).headerIndex = -1 →
      parseCSV content = []) := by
  refine ⟨fun s h => ?_, fun s hiso heu hus hlike hgen => ?_, fun content h => ?_⟩
  · by_cases hs : s = ""
    · simp [parseAmount, hs]
    · simp only [parseAmount, hs, if_false]
      simp only [h, Option.getD_none]
      split <;> simp
  · by_cases hs : s = ""
    · subst hs
      have : jsTrim "" = "" := rfl
      simp [normalizeDate, this]
    · simp [normalizeDate, hs, hiso, heu, hus, hlike, hgen]
  · unfold parseCSV
    by_cases hl : (contentLines content).length = 0
    · simp [hl]
    · simp [hl, h]

/-- Witness for C4: the unparseable amount cell "abc" gives 0, the
unparseable date cell "not a date" passes through trimmed, and an input
whose single line has no date header yields no records. -/
theorem degrade_defaults_witness :
    (amountParsed (parenStrip (jsTrim "abc")).1 = none ∧
      parseAmount (some "abc") = 0) ∧
    (isoShape (jsTrim "not a date").data = false ∧
      euMatch (jsTrim "not a date") = none ∧
      usMatch (jsTrim "not a date") = none ∧
      isoLikeMatch (jsTrim "not a date") = none ∧
      jsDateParse (jsTrim "not a date") = none ∧
      normalizeDate "not a date" = jsTrim "not a date") ∧
    ((findHeaders (contentLines "just one plain text line")
        (detectDelimiter ((contentLines "just one plain text line").take 10))).headerIndex
        = -1 ∧
      parseCSV "just one plain text line" = []) := by
  refine ⟨⟨by with_unfolding_all decide,
      degrade_defaults.1 "abc" (by with_unfolding_all decide)⟩,
    ⟨by decide, by decide, by decide, by decide, by decide,
      degrade_defaults.2.1 "not a date" (by decide) (by decide) (by decide)
        (by decide) (by decide)⟩,
    ⟨by with_unfolding_all decide,
      degrade_defaults.2.2 "just one plain text line"
        (by with_unfolding_all decide)⟩⟩

/-- What `findIdxAux` finds really is a cell of the row passing the
fallback test, at the reported index. -/
theorem findIdxAux_sound (m : ColMap) (row : List String) : ∀ (i j : ℕ),
    findIdxAux m i row = some j →
    ∃ col, row.get? (j - i) = some col ∧ fallbackCell m j col = true ∧ i ≤ j := by
  induction row with
  | nil => intro i j h; simp [findIdxAux] at h
  | cons col rest ih =>
      intro i j h
      unfold findIdxAux at h
      by_cases hc : fallbackCell m i col = true
      · rw [if_pos hc] at h
        injection h with h
        subst h
        exact ⟨col, by simp, hc, le_rfl⟩
      · rw [if_neg (by simpa using hc)] at h
        rcases ih (i + 1) j h with ⟨c2, hget, hcell, hle⟩
        refine ⟨c2, ?_, hcell, by omega⟩
        have hidx : j - i = (j - (i + 1)) + 1 := by omega
        rw [hidx]
        simpa using hget

/-- C7. Whenever the payee/memo-built description is falsy or shorter than
3 characters, the emitted description is the first field outside the
date/amount/debit/credit columns that is longer than 5 characters and not
numeric to `parseFloat`; with no such field, a still-falsy description
becomes the literal "Unknown Transaction". -/
theorem description_fallback (m : ColMap) (row : List String)
    (h : descNeedsFallback (descBase m row) = true) :
    buildDescription m row =
      (match findIdxAux m 0 row with
       | some i => jsStr (rowGet row i)
       | none =>
          if truthy (descBase m row) then jsStr (descBase m row)
          else "Unknown Transaction") := by
  unfold buildDescription
  simp only [h, if_true]
  rcases hfind : findIdxAux m 0 row with - | j
  · rfl
  · rcases findIdxAux_sound m row 0 j hfind with ⟨col, hget, hcell, -⟩
    simp only [Nat.sub_zero] at hget
    have hrowGet : rowGet row (j : ℤ) = some col := by
      unfold rowGet
      rw [if_neg (by omega)]
      simpa using hget
    have hlen : 5 < col.length := by
      unfold fallbackCell at hcell
      simp only [decide_eq_true_eq] at hcell
      exact hcell.2.2.2.2.1
    have htruthy : truthy (some col) = true := by
      simp only [truthy, decide_eq_true_eq]
      intro hcol
      rw [hcol] at hlen
      simp [String.length] at hlen
    simp [hrowGet, htruthy]

/-- Witness for C7: a row with no payee/memo columns falls through to its
third field, the only long non-numeric one. -/
theorem description_fallback_witness :
    descNeedsFallback (descBase ⟨0, -1, -1, 1, -1, -1⟩
      ["2023-01-01", "50", "MERCHANT NAME X"]) = true ∧
    buildDescription ⟨0, -1, -1, 1, -1, -1⟩ ["2023-01-01", "50", "MERCHANT NAME X"] =
      (match findIdxAux ⟨0, -1, -1, 1, -1, -1⟩ 0
          ["2023-01-01", "50", "MERCHANT NAME X"] with
       | some i => jsStr (rowGet ["2023-01-01", "50", "MERCHANT NAME X"] i)
       | none =>
          if truthy (descBase ⟨0, -1, -1, 1, -1, -1⟩
              ["2023-01-01", "50", "MERCHANT NAME X"]) then
            jsStr (descBase ⟨0, -1, -1, 1, -1, -1⟩
              ["2023-01-01", "50", "MERCHANT NAME X"])
          else "Unknown Transaction") :=
  ⟨by decide, description_fallback ⟨0, -1, -1, 1, -1, -1⟩
    ["2023-01-01", "50", "MERCHANT NAME X"] (by decide)⟩

theorem firstIdx_lt {p : Char → Bool} :
    ∀ {l : List Char} {i : ℕ}, firstIdx p l = some i → i < l.length := by
  intro l
  induction l with
  | nil => intro i h; simp [firstIdx] at h
  | cons c t ih =>
      intro i h
      unfold firstIdx at h
      by_cases hc : p c
      · rw [if_pos hc] at h
        injection h with h
        simp only [List.length_cons]
        omega
      · rw [if_neg hc] at h
        rcases Option.map_eq_some'.mp h with ⟨i', hi', rfl⟩
        have := ih hi'
        simp only [List.length_cons]
        omega

/-- Scanning backwards, the first separator met is a comma exactly when a
comma occurs and every period occurs earlier in the backward scan. -/
theorem find_sep_iff (r : List Char) :
    (r.find? (fun c => c == ',' || c == '.') = some ',') ↔
    (∃ ic, firstIdx (· == ',') r = some ic ∧
      ∀ j, firstIdx (· == '.') r = some j → ic < j) := by
  induction r with
  | nil => simp [firstIdx]
  | cons c t ih =>
      by_cases hcomma : c = ','
      · subst hcomma
        constructor
        · intro _
          refine ⟨0, by simp [firstIdx], fun j hj => ?_⟩
          unfold firstIdx at hj
          rw [if_neg (by decide)] at hj
          rcases Option.map_eq_some'.mp hj with ⟨j', -, rfl⟩
          omega
        · intro _
          simp [List.find?_cons]
      · by_cases hdot : c = '.'
        · subst hdot
          constructor
          · intro h
            rw [List.find?_cons_of_pos _ (by decide)] at h
            exact absurd (Option.some.inj h) (by decide)
          · rintro ⟨ic, hic, hall⟩
            have h0 : firstIdx (· == '.') ('.' :: t) = some 0 := by
              simp [firstIdx]
            exact absurd (hall 0 h0) (Nat.not_lt_zero ic)
        · have hpc : (c == ',' || c == '.') = false := by
            simp [hcomma, hdot]
          rw [List.find?_cons_of_neg _ (by simp [hpc])]
          rw [ih]
          constructor
          · rintro ⟨ic, hic, hall⟩
            refine ⟨ic + 1, ?_, fun j hj => ?_⟩
            · unfold firstIdx
              rw [if_neg (by simp [hcomma]), hic]
              rfl
            · unfold firstIdx at hj
              rw [if_neg (by simp [hdot])] at hj
              rcases Option.map_eq_some'.mp hj with ⟨j', hj', rfl⟩
              have := hall j' hj'
              omega
          · rintro ⟨ic, hic, hall⟩
            unfold firstIdx at hic
            rw [if_neg (by simp [hcomma])] at hic
            rcases Option.map_eq_some'.mp hic with ⟨ic', hic', rfl⟩
            refine ⟨ic', hic', fun j hj => ?_⟩
            have := hall (j + 1) (by
              unfold firstIdx
              rw [if_neg (by simp [hdot]), hj]
              rfl)
            omega

/-- C1. The decimal-comma detection of `parseAmount` holds exactly when,
scanning the cell from the end, a comma appears before any period (i.e.
the last comma is after the last period, or a comma occurs with no period
at all); a parenthesis-wrapped value is forced to minus the absolute value
of the parsed magnitude regardless of its sign; and the three reference
evaluations hold. -/
theorem parseAmount_spec :
    (∀ s : String, germanHeuristic s.data = true ↔
      s.data.reverse.find? (fun c => c == ',' || c == '.') = some ',') ∧
    (∀ s : String, (parenStrip (jsTrim s)).2 = true →
      parseAmount (some s) = -|(amountParsed (parenStrip (jsTrim s)).1).getD 0|) ∧
    parseAmount (some "1.234,56") = 1234.56 ∧
    parseAmount (some "1,234.56") = 1234.56 ∧
    parseAmount (some "(42.00)") = -42 := by
  refine ⟨fun s => ?_, fun s h => ?_,
    by rw [show (1234.56 : ℚ) = Rat.divInt 123456 100 by
        rw [Rat.divInt_eq_div]; norm_num]
       decide,
    by rw [show (1234.56 : ℚ) = Rat.divInt 123456 100 by
        rw [Rat.divInt_eq_div]; norm_num]
       decide,
    by decide⟩
  · rw [find_sep_iff]
    unfold germanHeuristic lastIndexOf
    rcases hic : firstIdx (· == ',') s.data.reverse with - | ic
    · simp only [hic]
      constructor
      · intro h
        simp at h
      · rintro ⟨ic, hic', -⟩
        exact absurd hic' (by simp)
    · have hlt : ic < s.data.length := by
        have := firstIdx_lt hic
        simpa using this
      rcases hjd : firstIdx (· == '.') s.data.reverse with - | jd
      · simp only [hic, hjd]
        constructor
        · intro _
          exact ⟨ic, rfl, fun j hj => by simp at hj⟩
        · intro _
          simp only [Bool.or_eq_true, Bool.and_eq_true, bne_iff_ne, ne_eq,
            decide_eq_true_eq]
          right
          constructor
          · omega
          · rfl
      · have hlt2 : jd < s.data.length := by
          have := firstIdx_lt hjd
          simpa using this
        simp only [hic, hjd]
        constructor
        · intro h
          simp only [Bool.or_eq_true, Bool.and_eq_true, bne_iff_ne, ne_eq,
            decide_eq_true_eq, beq_iff_eq] at h
          refine ⟨ic, rfl, fun j hj => ?_⟩
          injection hj with hj
          subst hj
          rcases h with ⟨hgt, -⟩ | ⟨-, habs⟩
          · omega
          · exact absurd habs (by omega)
        · rintro ⟨ic', hic', hall⟩
          injection hic' with hic'
          subst hic'
          have := hall jd rfl
          simp only [Bool.or_eq_true, Bool.and_eq_true, bne_iff_ne, ne_eq,
            decide_eq_true_eq, beq_iff_eq]
          left
          omega
  · by_cases hs : s = ""
    · subst hs
      exact absurd h (by decide)
    · simp only [parseAmount, hs, if_false]
      simp only [h, if_true]

/-- Witness for C1: "(42.00)" is parenthesis-wrapped and parses to minus
the absolute value of its magnitude. -/
theorem parseAmount_spec_witness :
    (parenStrip (jsTrim "(42.00)")).2 = true ∧
    parseAmount (some "(42.00)") =
      -|(amountParsed (parenStrip (jsTrim "(42.00)")).1).getD 0| :=
  ⟨by decide, parseAmount_spec.2.1 "(42.00)" (by decide)⟩

theorem isSep_not_digit {c : Char} (h : isSep c = true) : c.isDigit = false := by
  rcases (by simpa [isSep, or_assoc] using h : c = '.' ∨ c = '/' ∨ c = '-') with
    rfl | rfl | rfl <;> decide

/-- A string the European pattern accepts cannot pass the `YYYY-MM-DD`
test: its separator sits at index 1 or 2, where the ISO shape demands a
digit. -/
theorem euMatch_not_iso {t : String} {x : ℕ × ℕ × ℕ}
    (h : euMatch t = some x) : isoShape t.data = false := by
  unfold euMatch at h
  by_cases h1 : (t.data.takeWhile Char.isDigit).length = 0 ∨
      2 < (t.data.takeWhile Char.isDigit).length
  · rw [if_pos h1] at h
    exact absurd h (by simp)
  · rw [if_neg h1] at h
    push_neg at h1
    rcases hdrop : t.data.dropWhile Char.isDigit with - | ⟨c1, r2⟩
    · rw [hdrop] at h
      exact absurd h (by simp)
    · rw [hdrop] at h
      by_cases hsep : isSep c1
      · have hdig : c1.isDigit = false := isSep_not_digit hsep
        have hsplit : t.data.takeWhile Char.isDigit ++ c1 :: r2 = t.data := by
          rw [← hdrop]
          exact List.takeWhile_append_dropWhile _ _
        rcases htk : t.data.takeWhile Char.isDigit with - | ⟨x1, tl⟩
        · rw [htk] at h1
          simp at h1
        · rcases htl : tl with - | ⟨x2, tl2⟩
          · rw [htk, htl] at hsplit
            rw [← hsplit]
            simp [isoShape, digitAt, hdig]
          · rcases htl2 : tl2 with - | _
            · rw [htk, htl, htl2] at hsplit
              rw [← hsplit]
              simp [isoShape, digitAt, hdig]
            · rw [htk, htl, htl2] at h1
              simp at h1
      · have hsep' : isSep c1 = false := by simpa using hsep
        simp [hsep'] at h

/-- With an in-range calendar triple and a four-digit year, `new Date`
neither rolls anything over nor rewrites the year. -/
theorem jsNewDate_in_range (y m d : Int) (hy : 100 ≤ y)
    (hm0 : 0 ≤ m) (hm1 : m ≤ 11) (hd1 : 1 ≤ d)
    (hd2 : d ≤ daysInMonth y m.toNat) :
    jsNewDate y m d = (y, m.toNat, d) := by
  unfold jsNewDate
  rw [if_neg (by omega)]
  have hfdiv : m.fdiv 12 = 0 := by
    rw [Int.fdiv_eq_ediv _ (by norm_num)]
    omega
  have hemod : m.emod 12 = m := by
    rw [show m.emod 12 = m % 12 from rfl]
    omega
  rw [hfdiv, hemod]
  simp only [add_zero]
  rw [show (10000 : ℕ) = 9999 + 1 from rfl, normDay]
  rw [if_neg (by omega), if_neg (by omega)]

/-- C2. For a cell of shape `N sep N sep YYYY` (`sep` one of `.`, `/`,
`-`) naming a real calendar date with a four-digit year, `normalizeDate`
resolves the order day-first when the first component exceeds 12,
month-first when only the second does, day-first in the ambiguous case,
and re-emits `YYYY-MM-DD` with zero-padded month and day. -/
theorem normalizeDate_euro_spec (s : String) (a b y d m : ℕ)
    (hm : euMatch (jsTrim s) = some (a, b, y))
    (hres : (if 12 < a then (a, b) else if 12 < b then (b, a) else (a, b)) = (d, m))
    (hm1 : 1 ≤ m) (hm2 : m ≤ 12) (hd1 : 1 ≤ d)
    (hd2 : (d : Int) ≤ daysInMonth (y : Int) (m - 1))
    (hy1 : 1000 ≤ y) (hy2 : y ≤ 9999) :
    normalizeDate s =
      toString (y : Int) ++ "-" ++ pad2 (m : Int) ++ "-" ++ pad2 (d : Int) := by
  have hs : s ≠ "" := by
    rintro rfl
    rw [show euMatch (jsTrim "") = none from by decide] at hm
    exact absurd hm (by simp)
  have hiso := euMatch_not_iso hm
  have htn : ((m : Int) - 1).toNat = m - 1 := by omega
  have hdays : (d : Int) ≤ daysInMonth (y : Int) ((m : Int) - 1).toNat := by
    rw [htn]; exact hd2
  have hnew : jsNewDate (y : Int) ((m : Int) - 1) (d : Int) =
      ((y : Int), m - 1, (d : Int)) := by
    rw [jsNewDate_in_range _ _ _ (by omega) (by omega) (by omega) (by omega) hdays,
      htn]
  have hfmt : formatYmd ((y : Int), m - 1, (d : Int)) =
      toString (y : Int) ++ "-" ++ pad2 (m : Int) ++ "-" ++ pad2 (d : Int) := by
    rw [show formatYmd ((y : Int), m - 1, (d : Int)) =
      toString (y : Int) ++ "-" ++ pad2 (((m - 1 : ℕ) : Int) + 1) ++ "-" ++
        pad2 (d : Int) from rfl]
    rw [show ((m - 1 : ℕ) : Int) + 1 = (m : Int) by omega]
  unfold normalizeDate
  rw [if_neg hs, if_neg (by simp [hiso])]
  simp only [hm]
  by_cases h12a : 12 < a
  · have hab : a = d ∧ b = m := by
      rw [if_pos h12a] at hres
      exact ⟨congrArg Prod.fst hres, congrArg Prod.snd hres⟩
    rcases hab with ⟨rfl, rfl⟩
    rw [if_pos h12a, hnew, hfmt]
  · rw [if_neg h12a] at hres
    by_cases h12b : 12 < b
    · have hab : b = d ∧ a = m := by
        rw [if_pos h12b] at hres
        exact ⟨congrArg Prod.fst hres, congrArg Prod.snd hres⟩
      rcases hab with ⟨rfl, rfl⟩
      rw [if_neg h12a, if_pos h12b, hnew, hfmt]
    · have hab : a = d ∧ b = m := by
        rw [if_neg h12b] at hres
        exact ⟨congrArg Prod.fst hres, congrArg Prod.snd hres⟩
      rcases hab with ⟨rfl, rfl⟩
      rw [if_neg h12a, if_neg h12b, hnew, hfmt]

/-- Witness for C2: `normalizeDate("31/01/2023") = "2023-01-31"` (31 > 12
forces day-first). -/
theorem normalizeDate_euro_spec_witness :
    euMatch (jsTrim "31/01/2023") = some (31, 1, 2023) ∧
    normalizeDate "31/01/2023" =
      toString (2023 : Int) ++ "-" ++ pad2 (1 : Int) ++ "-" ++ pad2 (31 : Int) ∧
    normalizeDate "31/01/2023" = "2023-01-31" :=
  ⟨by decide,
   normalizeDate_euro_spec "31/01/2023" 31 1 2023 31 1 (by decide) (by decide)
     (by decide) (by decide) (by decide) (by decide) (by decide) (by decide),
   by decide⟩

/-- A digit character is not JS whitespace. -/
theorem digit_not_ws {c : Char} (h : c.isDigit = true) : isWs c = false := by
  unfold isWs
  by_contra hws
  simp only [Bool.not_eq_false, Bool.or_eq_true, beq_iff_eq, or_assoc] at hws
  rcases hws with rfl | rfl | rfl | rfl | rfl | rfl | rfl <;>
    exact absurd h (by decide)

/-- The head surviving a `dropWhile` fails the predicate. -/
theorem dropWhile_head_not {p : Char → Bool} :
    ∀ {l : List Char} {c : Char}, (l.dropWhile p).head? = some c → p c = false := by
  intro l
  induction l with
  | nil => intro c h; simp at h
  | cons a t ih =>
      intro c h
      rw [List.dropWhile_cons] at h
      by_cases hp : p a
      · rw [if_pos hp] at h
        exact ih h
      · rw [if_neg hp] at h
        simp only [List.head?_cons, Option.some.injEq] at h
        subst h
        simpa using hp

/-- A string with no whitespace at either end trims to itself. -/
theorem trimL_id {l : List Char}
    (h1 : ∀ c, l.head? = some c → isWs c = false)
    (h2 : ∀ c, l.getLast? = some c → isWs c = false) : trimL l = l := by
  unfold trimL
  have hd : l.dropWhile isWs = l := by
    rcases l with - | ⟨c, t⟩
    · rfl
    · rw [List.dropWhile_cons, if_neg]
      simp [h1 c rfl]
  rw [hd]
  have hd2 : l.reverse.dropWhile isWs = l.reverse := by
    rcases hrev : l.reverse with - | ⟨c, t⟩
    · rfl
    · rw [List.dropWhile_cons, if_neg]
      have hc : l.getLast? = some c := by
        rw [← List.head?_reverse, hrev]
        rfl
      simp [h2 c hc]
  rw [hd2, List.reverse_reverse]

/-- The head of a trimmed string is not whitespace. -/
theorem trimL_head_not_ws {l : List Char} {c : Char}
    (h : (trimL l).head? = some c) : isWs c = false := by
  unfold trimL at h
  rw [List.head?_reverse] at h
  rcases hB : (l.dropWhile isWs).reverse.dropWhile isWs with - | ⟨b, tb⟩
  · rw [hB] at h
    simp at h
  · rw [hB] at h
    have hsuf : (b :: tb) <:+ (l.dropWhile isWs).reverse := by
      rw [← hB]
      exact List.dropWhile_suffix _
    rcases hsuf with ⟨u, hu⟩
    have : (l.dropWhile isWs).reverse.getLast? = some c := by
      rw [← hu, List.getLast?_append_of_ne_nil _ (by simp)]
      exact h
    rw [List.getLast?_reverse] at this
    exact dropWhile_head_not this

/-- The last character of a trimmed string is not whitespace. -/
theorem trimL_last_not_ws {l : List Char} {c : Char}
    (h : (trimL l).getLast? = some c) : isWs c = false := by
  unfold trimL at h
  rw [List.getLast?_reverse] at h
  exact dropWhile_head_not h

/-- Trimming is idempotent. -/
theorem trimL_trimL (l : List Char) : trimL (trimL l) = trimL l :=
  trimL_id (fun _ h => trimL_head_not_ws h) (fun _ h => trimL_last_not_ws h)

theorem jsTrim_jsTrim (s : String) : jsTrim (jsTrim s) = jsTrim s :=
  congrArg String.mk (trimL_trimL s.data)

/-- A `YYYY-MM-DD`-shaped string trims to itself (it starts and ends with
digits). -/
theorem iso_trim_fix {s : String} (h : isoShape s.data = true) : jsTrim s = s := by
  unfold isoShape at h
  simp only [Bool.and_eq_true, beq_iff_eq] at h
  have hlen : s.data.length = 10 := h.1.1.1.1.1.1.1.1.1.1
  have hd0 : digitAt s.data 0 = true := h.1.1.1.1.1.1.1.1.1.2
  have hd9 : digitAt s.data 9 = true := h.2
  have htr : trimL s.data = s.data := by
    apply trimL_id
    · intro c hc
      rcases hd : s.data with - | ⟨a, t⟩
      · rw [hd] at hc
        simp at hc
      · rw [hd] at hc
        simp only [List.head?_cons, Option.some.injEq] at hc
        subst hc
        rw [hd] at hd0
        unfold digitAt at hd0
        rw [List.getD_cons_zero] at hd0
        exact digit_not_ws hd0
    · intro c hc
      rw [List.getLast?_eq_getElem?, hlen] at hc
      have hc9 : s.data[9]? = some c := by simpa using hc
      unfold digitAt at hd9
      rw [List.getD_eq_getElem?_getD, hc9] at hd9
      exact digit_not_ws (by simpa using hd9)
  show String.mk (trimL s.data) = s
  rw [htr]

/-- When every parser declines, `normalizeDate` passes the trimmed input
through (shared by the degradation and idempotence claims). -/
theorem normalizeDate_allfail (s : String)
    (hiso : isoShape (jsTrim s).data = false)
    (heu : euMatch (jsTrim s) = none) (hus : usMatch (jsTrim s) = none)
    (hlike : isoLikeMatch (jsTrim s) = none)
    (hgen : jsDateParse (jsTrim s) = none) :
    normalizeDate s = jsTrim s := by
  by_cases hs : s = ""
  · subst hs
    rfl
  · simp [normalizeDate, hs, hiso, heu, hus, hlike, hgen]

/-- C8 (amended). `normalizeDate` returns inputs already in `YYYY-MM-DD`
form unchanged; re-application is the identity whenever the first output
is `YYYY-MM-DD`-shaped (a four-digit year) or the trimmed input itself
(every parser declined). Unrestricted idempotence fails: a parse that
emits a year below 1000 (see the counterexample) re-parses differently. -/
theorem normalizeDate_idempotent_cases :
    (∀ s : String, isoShape s.data = true → normalizeDate s = s) ∧
    (∀ s : String, isoShape (normalizeDate s).data = true →
      normalizeDate (normalizeDate s) = normalizeDate s) ∧
    (∀ s : String, isoShape (jsTrim s).data = false →
      euMatch (jsTrim s) = none → usMatch (jsTrim s) = none →
      isoLikeMatch (jsTrim s) = none → jsDateParse (jsTrim s) = none →
      normalizeDate (normalizeDate s) = normalizeDate s) := by
  have base : ∀ s : String, isoShape s.data = true → normalizeDate s = s := by
    intro s h
    have hne : s ≠ "" := by
      rintro rfl
      exact absurd h (by decide)
    unfold normalizeDate
    rw [if_neg hne, iso_trim_fix h]
    rw [if_pos h]
  refine ⟨base, fun s h => base _ h, fun s h1 h2 h3 h4 h5 => ?_⟩
  have hfirst : normalizeDate s = jsTrim s := normalizeDate_allfail s h1 h2 h3 h4 h5
  rw [hfirst]
  have hTT := jsTrim_jsTrim s
  exact normalizeDate_allfail (jsTrim s) (by rw [hTT]; exact h1)
    (by rw [hTT]; exact h2) (by rw [hTT]; exact h3) (by rw [hTT]; exact h4)
    (by rw [hTT]; exact h5) |>.trans hTT

/-- Witness for C8: "2023-05-04" is already ISO and comes back unchanged;
"plainly not a date" fails every parser and normalizing twice equals
normalizing once. -/
theorem normalizeDate_idempotent_cases_witness :
    (isoShape ("2023-05-04" : String).data = true ∧
      normalizeDate "2023-05-04" = "2023-05-04") ∧
    (isoShape (jsTrim "plainly not a date").data = false ∧
      euMatch (jsTrim "plainly not a date") = none ∧
      usMatch (jsTrim "plainly not a date") = none ∧
      isoLikeMatch (jsTrim "plainly not a date") = none ∧
      jsDateParse (jsTrim "plainly not a date") = none ∧
      normalizeDate (normalizeDate "plainly not a date") =
        normalizeDate "plainly not a date") :=
  ⟨⟨by decide, normalizeDate_idempotent_cases.1 "2023-05-04" (by decide)⟩,
   ⟨by decide, by decide, by decide, by decide, by decide,
    normalizeDate_idempotent_cases.2.2 "plainly not a date" (by decide)
      (by decide) (by decide) (by decide) (by decide)⟩⟩

/-- Counterexample to C8 as stated: the ECMA-standard date-time string
"0005-01-01T00:00" reaches the platform-parser fallback and is emitted as
"5-01-01" (the year is not zero-padded), which the US pattern then
re-parses as a two-digit-year date "2001-05-01" — so normalizing the
output changes it. -/
theorem normalizeDate_not_idempotent :
    normalizeDate (normalizeDate "0005-01-01T00:00") ≠
      normalizeDate "0005-01-01T00:00" := by decide

theorem char_eq_of_toNat_eq {a b : Char} (h : a.toNat = b.toNat) : a = b := by
  apply Char.ext
  have hbv : a.val.toBitVec.toNat = b.val.toBitVec.toNat := h
  exact UInt32.eq_of_toBitVec_eq (BitVec.eq_of_toNat_eq hbv)

theorem lowerCode_valid {n : ℕ} (h : n.isValidChar) : (lowerCode n).isValidChar := by
  unfold lowerCode
  split
  · left
    omega
  · exact h

theorem upperCode_valid {n : ℕ} (h : n.isValidChar) : (upperCode n).isValidChar := by
  unfold upperCode
  split
  · left
    omega
  · exact h

theorem toNat_ofNat_valid {n : ℕ} (h : n.isValidChar) : (Char.ofNat n).toNat = n := by
  simp only [Char.ofNat, h, dif_pos]
  rfl

theorem lowerChar_toNat (c : Char) : (lowerChar c).toNat = lowerCode c.toNat :=
  toNat_ofNat_valid (lowerCode_valid c.valid)

theorem upperChar_toNat (c : Char) : (upperChar c).toNat = upperCode c.toNat :=
  toNat_ofNat_valid (upperCode_valid c.valid)

theorem upperCode_lowerCode (n : ℕ) : upperCode (lowerCode n) = upperCode n := by
  unfold upperCode lowerCode
  split_ifs <;> omega

theorem upperCode_upperCode (n : ℕ) : upperCode (upperCode n) = upperCode n := by
  unfold upperCode
  split_ifs <;> omega

/-- Upper-casing is insensitive to a prior lower-casing. -/
theorem upperChar_lowerChar (c : Char) : upperChar (lowerChar c) = upperChar c := by
  apply char_eq_of_toNat_eq
  rw [upperChar_toNat, upperChar_toNat, lowerChar_toNat, upperCode_lowerCode]

theorem upperChar_upperChar (c : Char) : upperChar (upperChar c) = upperChar c := by
  apply char_eq_of_toNat_eq
  rw [upperChar_toNat, upperChar_toNat]
  exact upperCode_upperCode _

theorem upperChar_space : upperChar ' ' = ' ' := by decide

theorem lowerChar_space : lowerChar ' ' = ' ' := by decide

/-- Lower-casing maps only letters; a space comes only from a space. -/
theorem lowerChar_eq_space {c : Char} (h : lowerChar c = ' ') : c = ' ' := by
  apply char_eq_of_toNat_eq
  show c.toNat = (' ' : Char).toNat
  have hsp : (' ' : Char).toNat = 32 := rfl
  rw [hsp]
  have h32 : lowerCode c.toNat = 32 := by
    rw [← lowerChar_toNat, h, hsp]
  unfold lowerCode at h32
  split at h32 <;> omega

theorem splitSp_ne_nil : ∀ l : List Char, splitSp l ≠ [] := by
  intro l
  cases l with
  | nil => simp [splitSp]
  | cons c t =>
      unfold splitSp
      split
      · simp
      · split <;> simp

theorem splitSp_cons (c : Char) (t : List Char) :
    splitSp (c :: t) =
      (if c = ' ' then [] :: splitSp t
       else
        match splitSp t with
        | [] => [[c]]
        | g :: gs => (c :: g) :: gs) := rfl

theorem splitSp_cons_space (t : List Char) : splitSp (' ' :: t) = [] :: splitSp t := by
  rw [splitSp_cons, if_pos rfl]

theorem splitSp_cons_ne {c : Char} (t : List Char) (hc : c ≠ ' ') :
    splitSp (c :: t) =
      (match splitSp t with
       | [] => [[c]]
       | g :: gs => (c :: g) :: gs) := by
  rw [splitSp_cons, if_neg hc]

theorem joinSp_cons_cons (w x : List Char) (xs : List (List Char)) :
    joinSp (w :: x :: xs) = w ++ ' ' :: joinSp (x :: xs) := rfl

/-- `join(' ')` undoes `split(' ')`. -/
theorem joinSp_splitSp : ∀ l : List Char, joinSp (splitSp l) = l := by
  intro l
  induction l with
  | nil => rfl
  | cons c t ih =>
      by_cases hc : c = ' '
      · subst hc
        rw [splitSp_cons_space]
        rcases hsp : splitSp t with - | ⟨g, gs⟩
        · exact absurd hsp (splitSp_ne_nil t)
        · rw [joinSp_cons_cons, ← hsp, ih]
          rfl
      · rw [splitSp_cons_ne t hc]
        rcases hsp : splitSp t with - | ⟨g, gs⟩
        · exact absurd hsp (splitSp_ne_nil t)
        · rcases gs with - | ⟨h2, hs⟩
          · show c :: g = c :: t
            have : joinSp (splitSp t) = t := ih
            rw [hsp] at this
            exact congrArg (c :: ·) this
          · show joinSp ((c :: g) :: h2 :: hs) = c :: t
            rw [joinSp_cons_cons]
            have : joinSp (splitSp t) = t := ih
            rw [hsp, joinSp_cons_cons] at this
            show c :: (g ++ ' ' :: joinSp (h2 :: hs)) = c :: t
            rw [this]

/-- Lower-casing commutes with the space split (it fixes spaces and maps
nothing else to a space). -/
theorem splitSp_map_lower : ∀ l : List Char,
    splitSp (l.map lowerChar) = (splitSp l).map (List.map lowerChar) := by
  intro l
  induction l with
  | nil => rfl
  | cons c t ih =>
      by_cases hc : c = ' '
      · subst hc
        rw [List.map_cons, lowerChar_space, splitSp_cons_space, splitSp_cons_space,
          List.map_cons, ih]
        simp
      · have hlc : lowerChar c ≠ ' ' := fun h => hc (lowerChar_eq_space h)
        rw [List.map_cons, splitSp_cons_ne _ hlc, splitSp_cons_ne t hc, ih]
        rcases hsp : splitSp t with - | ⟨g, gs⟩
        · exact absurd hsp (splitSp_ne_nil t)
        · simp

/-- Upper-casing distributes over `join(' ')` (it fixes the space). -/
theorem map_upperChar_joinSp : ∀ L : List (List Char),
    (joinSp L).map upperChar = joinSp (L.map (List.map upperChar)) := by
  intro L
  induction L with
  | nil => rfl
  | cons w ws ih =>
      rcases ws with - | ⟨x, xs⟩
      · rfl
      · rw [joinSp_cons_cons, List.map_cons, List.map_cons, joinSp_cons_cons]
        rw [List.map_append, List.map_cons, upperChar_space]
        rw [ih]
        simp

/-- Upper-casing erases both the lower-casing and the capitalization of a
title-cased word. -/
theorem map_upper_capWord_lower (w : List Char) :
    (capWord (w.map lowerChar)).map upperChar = w.map upperChar := by
  rcases w with - | ⟨c, t⟩
  · rfl
  · show (upperChar (lowerChar c) :: t.map lowerChar).map upperChar = _
    rw [List.map_cons, List.map_cons, upperChar_upperChar, upperChar_lowerChar,
      List.map_map]
    exact congrArg (upperChar c :: ·)
      (List.map_congr_left (fun x _ => upperChar_lowerChar x))

/-- Upper-casing a title-cased string equals upper-casing the original. -/
theorem upper_title (l : List Char) :
    (titleL l).map upperChar = l.map upperChar := by
  unfold titleL
  rw [map_upperChar_joinSp, splitSp_map_lower, List.map_map, List.map_map]
  have hw : List.map ((List.map upperChar ∘ capWord) ∘ List.map lowerChar)
        (splitSp l) = List.map (List.map upperChar) (splitSp l) :=
    List.map_congr_left (fun w _ => map_upper_capWord_lower w)
  rw [hw, ← map_upperChar_joinSp, joinSp_splitSp]

theorem map_upper_idem (l : List Char) :
    (l.map upperChar).map upperChar = l.map upperChar := by
  rw [List.map_map]
  exact List.map_congr_left (fun c _ => upperChar_upperChar c)

/-- C9 (amended). `cleanMerchantName` is idempotent on inputs whose
upper-cased form the prefix strip, the fragment removals and the asterisk
replacement all leave unchanged AND whose whitespace is already collapsed
(single spaces, none at the ends). The extra whitespace condition is
forced: collapsing can expose a prefix (see the counterexample). -/
theorem cleanMerchant_idempotent (s : String)
    (h1 : stripPrefixGroups (s.data.map upperChar) = s.data.map upperChar)
    (h2 : noiseStripped (s.data.map upperChar) = s.data.map upperChar)
    (h3 : destarL (s.data.map upperChar) = s.data.map upperChar)
    (h4 : trimL (collapseWsL (s.data.map upperChar)) = s.data.map upperChar) :
    cleanMerchantName (cleanMerchantName s) = cleanMerchantName s := by
  have hclean : cleanMerchantName s =
      (if (brandStep (titleL (s.data.map upperChar))).isEmpty then s
       else ⟨brandStep (titleL (s.data.map upperChar))⟩) := by
    simp only [cleanMerchantName]
    rw [h1, h2, h3, h4]
  have hupper_t : (titleL (s.data.map upperChar)).map upperChar =
      s.data.map upperChar := by
    rw [upper_title, map_upper_idem]
  rcases hf : brandCorrections.find?
      (fun e => hasSubL (e.1.data.map lowerChar)
        ((titleL (s.data.map upperChar)).map lowerChar)) with - | e
  · have hbs : brandStep (titleL (s.data.map upperChar)) =
        titleL (s.data.map upperChar) := by
      unfold brandStep
      rw [hf]
    by_cases ht : (titleL (s.data.map upperChar)).isEmpty
    · have hcs : cleanMerchantName s = s := by
        rw [hclean, hbs, if_pos ht]
      rw [hcs, hcs]
    · have hcs : cleanMerchantName s = ⟨titleL (s.data.map upperChar)⟩ := by
        rw [hclean, hbs, if_neg ht]
      rw [hcs]
      simp only [cleanMerchantName]
      rw [hupper_t, h1, h2, h3, h4, hbs, if_neg ht]
  · have hbs : brandStep (titleL (s.data.map upperChar)) = e.2.data := by
      unfold brandStep
      rw [hf]
    have hmem : e ∈ brandCorrections := List.mem_of_find?_eq_some hf
    simp only [brandCorrections, List.mem_cons, List.not_mem_nil, or_false] at hmem
    rcases hmem with rfl | rfl | rfl | rfl | rfl | rfl | rfl | rfl | rfl | rfl |
      rfl | rfl | rfl <;>
    · rw [hclean, hbs, if_neg (by decide)]
      decide

/-- Counterexample to C9 as stated: "debit⇥x" (a tab, not a space, after
"debit") is untouched by the prefix strip and every fragment removal, yet
cleaning once gives "Debit X" and cleaning that strips the now-exposed
"DEBIT " prefix, giving "X". -/
theorem cleanMerchant_not_idempotent :
    (stripPrefixGroups ("debit\tx".data.map upperChar) =
      "debit\tx".data.map upperChar) ∧
    (noiseStripped ("debit\tx".data.map upperChar) =
      "debit\tx".data.map upperChar) ∧
    (destarL ("debit\tx".data.map upperChar) = "debit\tx".data.map upperChar) ∧
    cleanMerchantName (cleanMerchantName "debit\tx") ≠
      cleanMerchantName "debit\tx" :=
  ⟨by decide, by decide, by decide, by decide⟩

/-- Witness for C9: "Starbucks Store" is free of prefixes, fragments and
asterisks, its whitespace is collapsed, and re-cleaning its cleaning is
the identity. -/
theorem cleanMerchant_idempotent_witness :
    (stripPrefixGroups ("Starbucks Store".data.map upperChar) =
      "Starbucks Store".data.map upperChar) ∧
    (noiseStripped ("Starbucks Store".data.map upperChar) =
      "Starbucks Store".data.map upperChar) ∧
    (destarL ("Starbucks Store".data.map upperChar) =
      "Starbucks Store".data.map upperChar) ∧
    (trimL (collapseWsL ("Starbucks Store".data.map upperChar)) =
      "Starbucks Store".data.map upperChar) ∧
    cleanMerchantName (cleanMerchantName "Starbucks Store") =
      cleanMerchantName "Starbucks Store" :=
  ⟨by decide, by decide, by decide, by decide,
   cleanMerchant_idempotent "Starbucks Store" (by decide) (by decide) (by decide)
     (by decide)⟩

end FinClear